import Mathlib

/-!
# Verification of the barchart aggregation / axis / layout core

A shallow embedding of the computational core of `src/barchart.js`
(calendar bucket keys, data aggregation, the nice-number linear tick
planner, the log10 tick planner with tapered minor ticks, and the bar
layout planner), together with theorems settling the specification
claims about it.

Conventions of the embedding:
* JS numbers are modelled as exact rationals (`ℚ`); `Math.floor` is
  `Int.floor`, `Math.round x` is `⌊x + 1/2⌋` (JS rounds half towards
  +∞), `Math.log10`/`Math.pow` are modelled exactly through integer
  base-10 logarithms of rationals.
* JS `Date` values are modelled as proleptic-Gregorian calendar dates
  `(year, month, day)`; the local timezone is taken to be UTC (the
  source itself mixes UTC and local accessors, see spec §9).
* JS strings are Lean `String`s; the `localeCompare` order used to sort
  bucket keys is modelled as code-unit lexicographic order (`strLt`
  below), which coincides with it on the ASCII bucket keys the library
  generates.
-/

namespace Barchart

/-! ## Small JS-number helpers -/

/-- `Math.round` of JS: round half towards positive infinity. -/
def jsRound (q : ℚ) : ℤ := ⌊q + 1/2⌋

/-- `Math.round(avgValue * 100) / 100` from `aggregates`. -/
def round2 (q : ℚ) : ℚ := (jsRound (q * 100) : ℚ) / 100

/-- `values.reduce((a, b) => a + b, 0)`. -/
def listSum (l : List ℚ) : ℚ := l.foldl (· + ·) 0

/-- `Math.max(...values)` (only ever applied to nonempty lists). -/
def listMax : List ℚ → ℚ
  | [] => 0
  | x :: xs => xs.foldl max x

/-- `Math.min(...values)` (only ever applied to nonempty lists). -/
def listMin : List ℚ → ℚ
  | [] => 0
  | x :: xs => xs.foldl min x

/-! ## The string order used to sort bucket keys

`aggregates` and the multi-series merge sort records with
`a.date.localeCompare(b.date)`.  On the ASCII keys generated by the
library this is code-unit lexicographic comparison, which we implement
as a boolean function on the character lists so that it evaluates by
kernel reduction. -/

/-- Lexicographic `<` on character lists, by code point. -/
def chLtB : List Char → List Char → Bool
  | [], [] => false
  | [], _ :: _ => true
  | _ :: _, [] => false
  | a :: as, b :: bs =>
    if a.toNat < b.toNat then true
    else if b.toNat < a.toNat then false
    else chLtB as bs

/-- Strict lexicographic order on strings (the `localeCompare < 0` order). -/
def strLt (a b : String) : Prop := chLtB a.data b.data = true

/-- Lax lexicographic order on strings (the `localeCompare ≤ 0` order). -/
def strLe (a b : String) : Prop := chLtB b.data a.data = false

instance : DecidableRel strLt := fun a b =>
  inferInstanceAs (Decidable (chLtB a.data b.data = true))

instance : DecidableRel strLe := fun a b =>
  inferInstanceAs (Decidable (chLtB b.data a.data = false))

/-! ## Calendar model

Proleptic Gregorian dates and the civil-from-days / days-from-civil
conversions (Howard Hinnant's closed-form algorithms), used to give
exact meaning to the `Date` arithmetic in `getWeek`. -/

/-- A calendar date: what `new Date(y, m-1, d)` denotes (UTC convention). -/
structure Ymd where
  y : ℤ
  m : ℤ
  d : ℤ
deriving DecidableEq, Repr

/-- Days since 1970-01-01 of a civil date (Hinnant's `days_from_civil`). -/
def daysFromCivil (y m d : ℤ) : ℤ :=
  let y' := if m ≤ 2 then y - 1 else y
  let era := y'.fdiv 400
  let yoe := y' - era * 400
  let mp := if 2 < m then m - 3 else m + 9
  let doy := (153 * mp + 2).fdiv 5 + d - 1
  let doe := yoe * 365 + yoe.fdiv 4 - yoe.fdiv 100 + doy
  era * 146097 + doe - 719468

/-- Civil date of a days-since-1970 count (Hinnant's `civil_from_days`). -/
def civilFromDays (z : ℤ) : Ymd :=
  let z' := z + 719468
  let era := z'.fdiv 146097
  let doe := z' - era * 146097
  let yoe := (doe - doe.fdiv 1460 + doe.fdiv 36524 - doe.fdiv 146096).fdiv 365
  let y := yoe + era * 400
  let doy := doe - (365 * yoe + yoe.fdiv 4 - yoe.fdiv 100)
  let mp := (5 * doy + 2).fdiv 153
  let d := doy - (153 * mp + 2).fdiv 5 + 1
  let m := if mp < 10 then mp + 3 else mp - 9
  ⟨if m ≤ 2 then y + 1 else y, m, d⟩

/-- `date.getUTCDay()`: 0 = Sunday … 6 = Saturday (1970-01-01 was a Thursday). -/
def jsGetDay (x : Ymd) : ℤ := (daysFromCivil x.y x.m x.d + 4).fmod 7

/-! ## Calendar key functions (source: `getWeek`, `formatWeek`,
`formatMonth`, `formatYear` and the `getGroupKey` switch) -/

/-- Left-pad the decimal rendering of `n` with zeros (`String(n).padStart`). -/
def padZeros (len : ℕ) (n : ℕ) : String :=
  let s := toString n
  String.mk (List.replicate (len - s.length) '0') ++ s

/--
`getWeek(date)` from the source:

```js
const d = new Date(Date.UTC(date.getFullYear(), date.getMonth(), date.getDate()));
const dayNum = d.getUTCDay() || 7;
d.setUTCDate(d.getUTCDate() + 4 - dayNum);
const yearStart = new Date(Date.UTC(d.getUTCFullYear(), 0, 1));
return Math.ceil((((d - yearStart) / 86400000) + 1) / 7);
```

Shift the date to the Thursday of its Monday-start week; the week
number is `ceil((daysSinceJan1OfThatThursdaysYear + 1) / 7)`.
-/
def getWeek (x : Ymd) : ℤ :=
  let z := daysFromCivil x.y x.m x.d
  let dow := (z + 4).fmod 7
  let dayNum := if dow = 0 then 7 else dow
  let z' := z + 4 - dayNum
  let t := civilFromDays z'
  let yearStart := daysFromCivil t.y 1 1
  (z' - yearStart + 1 + 6).fdiv 7

/-- `formatWeek(date)`: `` `${date.getFullYear()}-W${String(getWeek(date)).padStart(2, '0')}` ``.
Note it pairs the ISO week *number* with the date's own calendar year. -/
def formatWeek (x : Ymd) : String :=
  toString x.y ++ "-W" ++ padZeros 2 (getWeek x).toNat

/-- `formatMonth(date)`: `` `${date.getFullYear()}-${String(date.getMonth() + 1).padStart(2, '0')}` ``. -/
def formatMonth (x : Ymd) : String :=
  toString x.y ++ "-" ++ padZeros 2 x.m.toNat

/-- `formatYear(date)`. -/
def formatYear (x : Ymd) : String := toString x.y

/-- The date part of `date.toISOString()` (`YYYY-MM-DD`), the Day bucket key. -/
def dayKey (x : Ymd) : String :=
  padZeros 4 x.y.toNat ++ "-" ++ padZeros 2 x.m.toNat ++ "-" ++ padZeros 2 x.d.toNat

/-- The Weekday bucket key `String(date.getDay())`. -/
def weekdayKey (x : Ymd) : String := toString (jsGetDay x)

/--
Modelled from the spec (§4.1) for comparison with `formatWeek`: the
ISO-8601 week key `YYYY-Www` in which the *year* component is the
calendar year of the Thursday of the timestamp's Monday-start week and
the week number is `ceil((daysSinceJan1OfThatYear + 1) / 7)`.
-/
def isoWeekKeySpec (x : Ymd) : String :=
  let z := daysFromCivil x.y x.m x.d
  let dow := (z + 4).fmod 7
  let dayNum := if dow = 0 then 7 else dow
  let thursday := z + 4 - dayNum
  let t := civilFromDays thursday
  let yearStart := daysFromCivil t.y 1 1
  toString t.y ++ "-W" ++ padZeros 2 ((thursday - yearStart + 1 + 6).fdiv 7).toNat

/-! ## Date-string parsing (`new Date(string)`)

The aggregator re-parses string dates with `new Date(d.date)`.  We model
the ECMA-262 Date Time String Format date-only forms `YYYY`, `YYYY-MM`
and `YYYY-MM-DD` (parsed as UTC); any other string — e.g. a week key
`"2024-W01"` or a weekday digit `"3"` — yields an invalid date and the
observation is filtered out. -/

/-- Split a character list at `'-'` (`"…".split('-')`). -/
def splitDash : List Char → List (List Char)
  | [] => [[]]
  | c :: cs =>
    match splitDash cs with
    | h :: t => if c = '-' then [] :: h :: t else (c :: h) :: t
    | [] => if c = '-' then [[], []] else [[c]]

/-- The value of a fixed-width all-digit field, `none` otherwise. -/
def digitsVal (len : ℕ) (l : List Char) : Option ℤ :=
  if l.length = len ∧ l.all Char.isDigit then
    some (l.foldl (fun a c => a * 10 + ((c.toNat : ℤ) - 48)) 0)
  else none

/-- Gregorian leap year. -/
def isLeap (y : ℤ) : Bool := y.emod 4 = 0 ∧ (y.emod 100 ≠ 0 ∨ y.emod 400 = 0)

/-- Days in a month. -/
def daysInMonth (y m : ℤ) : ℤ :=
  if m = 2 then (if isLeap y then 29 else 28)
  else if m = 4 ∨ m = 6 ∨ m = 9 ∨ m = 11 then 30
  else 31

/-- `new Date(s)` for a string: the ECMA date-only formats, else invalid. -/
def parseDate (s : String) : Option Ymd :=
  match splitDash s.data with
  | [ys] =>
    match digitsVal 4 ys with
    | some y => some ⟨y, 1, 1⟩
    | none => none
  | [ys, ms] =>
    match digitsVal 4 ys, digitsVal 2 ms with
    | some y, some m => if 1 ≤ m ∧ m ≤ 12 then some ⟨y, m, 1⟩ else none
    | _, _ => none
  | [ys, ms, ds] =>
    match digitsVal 4 ys, digitsVal 2 ms, digitsVal 2 ds with
    | some y, some m, some d =>
      if 1 ≤ m ∧ m ≤ 12 ∧ 1 ≤ d ∧ d ≤ daysInMonth y m then some ⟨y, m, d⟩ else none
    | _, _, _ => none
  | _ => none

/-- A `date` field of an input record: already a `Date`, or a string. -/
inductive DateInput where
  | date (x : Ymd)
  | str (s : String)
deriving DecidableEq, Repr

/-- `d.date instanceof Date ? d.date : new Date(d.date)`. -/
def parseInput : DateInput → Option Ymd
  | .date x => some x
  | .str s => parseDate s

/-! ## The aggregator (source: `aggregates`) -/

/-- An input observation `{date, value, highValue?, lowValue?}`. -/
structure RawObs where
  date : DateInput
  value : ℚ
  highValue : Option ℚ := none
  lowValue : Option ℚ := none
deriving DecidableEq, Repr

/-- An output record `{date, value, highValue, lowValue, count}` (the
`date` field holds the bucket key string). -/
structure AggRec where
  date : String
  value : ℚ
  highValue : ℚ
  lowValue : ℚ
  count : ℕ
deriving DecidableEq, Repr

/-- The aggregation mode (`chartType`). -/
inductive AggMode where
  | byDay | byWeek | byMonth | byYear | byWeekday | other
deriving DecidableEq, Repr

/-- The `getGroupKey` switch of `aggregates` (the `default` arm also
formats by month). -/
def getGroupKey (mode : AggMode) (x : Ymd) : String :=
  match mode with
  | .byDay => dayKey x
  | .byWeek => formatWeek x
  | .byMonth => formatMonth x
  | .byYear => formatYear x
  | .byWeekday => weekdayKey x
  | .other => formatMonth x

/-- First-occurrence deduplication, with the keys already seen as an
accumulator (structural recursion, so that it evaluates by kernel
reduction). -/
def dedupFirstAux (seen : List String) : List String → List String
  | [] => []
  | k :: ks => if k ∈ seen then dedupFirstAux seen ks else k :: dedupFirstAux (k :: seen) ks

/-- First-occurrence deduplication: the insertion order of the keys of a
JS `Map` filled by a single traversal. -/
def dedupFirst (l : List String) : List String := dedupFirstAux [] l

/-- Record order used by `result.sort((a, b) => a.date.localeCompare(b.date))`. -/
def aggRecLe (a b : AggRec) : Prop := strLe a.date b.date

instance : DecidableRel aggRecLe := fun a b => inferInstanceAs (Decidable (strLe _ _))

/--
`aggregates(data, mode)` from the source:

1. normalize (parse dates, drop invalid observations — with values
   modelled as exact rationals the `isNaN(value)` filter never fires);
2. key each observation by `getGroupKey`;
3. group into a `Map` (keys in first-occurrence order, each group in
   input order) — only `v.value` of each group member is ever read;
4. reduce each group: mean rounded to 2 decimals, max, min, count;
5. sort the records by bucket key (keys are distinct, so the JS stable
   sort produces exactly the key-sorted list).
-/
def aggKeyed (data : List RawObs) (mode : AggMode) : List (String × ℚ) :=
  data.filterMap fun r => (parseInput r.date).map fun x => (getGroupKey mode x, r.value)

/-- Reduce the group of bucket key `k` (its members, in input order, are
the keyed values whose key is `k`). -/
def aggGroupRec (keyed : List (String × ℚ)) (k : String) : AggRec :=
  let vs := (keyed.filter fun p => p.1 = k).map Prod.snd
  { date := k, value := round2 (listSum vs / (vs.length : ℚ)),
    highValue := listMax vs, lowValue := listMin vs, count := vs.length }

def aggregates (data : List RawObs) (mode : AggMode) : List AggRec :=
  let keyed := aggKeyed data mode
  List.insertionSort aggRecLe ((dedupFirst (keyed.map Prod.fst)).map (aggGroupRec keyed))

/-! ## Day-mode passthrough (source: `processData`, `chartType === 'byDay'`) -/

/-- JS `x || y` on an optional number: `undefined` and `0` both fall
through to `y`. -/
def jsOr (o : Option ℚ) (y : ℚ) : ℚ :=
  match o with
  | some x => if x = 0 then y else x
  | none => y

/--
The no-aggregation branch of `processData`:

```js
return normalized.map(d => ({
  date: …toISOString().split('T')[0],
  value: d.value,
  highValue: d.highValue || d.value,
  lowValue: d.lowValue || d.value,
  count: 1
}));
```

One record per valid observation, *in input order* (this branch never
sorts).
-/
def passthroughDay (data : List RawObs) : List AggRec :=
  data.filterMap fun r =>
    (parseInput r.date).map fun x =>
      { date := dayKey x, value := r.value,
        highValue := jsOr r.highValue r.value,
        lowValue := jsOr r.lowValue r.value, count := 1 }

/-! ## Multi-series alignment (source: `createChart`, staggered/stacked merge) -/

/-- An observation of one series in staggered/stacked mode. -/
structure SeriesObs where
  date : Ymd
  value : ℚ
deriving DecidableEq, Repr

/-- A merged record `{date, values}`; a `none` slot is an absent value
(`null` in the source). -/
structure MultiRec where
  date : String
  values : List (Option ℚ)
deriving DecidableEq, Repr

/-- The final value of slot `s` for day key `k`: the value of the last
observation of series `s` on that day (`dateValueMap.get(dateStr).values[seriesIdx]
= d.value` overwrites), `none` when the series has no observation there. -/
def slotVal (s : List SeriesObs) (k : String) : Option ℚ :=
  ((s.filter fun o => dayKey o.date = k).map SeriesObs.value).getLast?

/-- Record order used by `.sort((a, b) => a.date.localeCompare(b.date))`. -/
def multiRecLe (a b : MultiRec) : Prop := strLe a.date b.date

instance : DecidableRel multiRecLe := fun a b => inferInstanceAs (Decidable (strLe _ _))

/--
The staggered/stacked merge of `createChart`: collect every day key of
every series into `dateValueMap` (a JS `Map`, so the keys are in
first-occurrence order of the series-major traversal), each entry
holding a `values` array of length `seriesCount` initialized to `null`
and overwritten at index `s` by each observation of series `s`; then
sort the records by day key (keys are distinct, so the stable sort
yields exactly the key-sorted list).
-/
def alignSeries (seriesList : List (List SeriesObs)) : List MultiRec :=
  let allKeys := dedupFirst (seriesList.flatMap fun s => s.map fun o => dayKey o.date)
  let recs := allKeys.map fun k => MultiRec.mk k (seriesList.map fun s => slotVal s k)
  List.insertionSort multiRecLe recs

/-! ## Layout planner (source: `createChart` bar geometry) -/

/-- The bar geometry `{innerWidth, barStep, barWidth}`. -/
structure LayoutPlan where
  innerWidth : ℚ
  barStep : ℚ
  barWidth : ℚ
deriving DecidableEq, Repr

/--
```js
const barPadding = 0.2;
const minContentWidth = barCount * cfg.barMinWidth / (1 - barPadding);
const innerWidth = Math.max(cfg.visibleWidth - cfg.margin.left - cfg.margin.right, minContentWidth);
const barStep = innerWidth / barCount;
const barWidth = Math.max(1, barStep * (1 - barPadding));
```
-/
def planLayout (barCount : ℕ) (visibleWidth marginLeft marginRight barMinWidth : ℚ) :
    LayoutPlan :=
  let barPadding : ℚ := 2/10
  let minContentWidth := (barCount : ℚ) * barMinWidth / (1 - barPadding)
  let innerWidth := max (visibleWidth - marginLeft - marginRight) minContentWidth
  let barStep := innerWidth / (barCount : ℚ)
  let barWidth := max 1 (barStep * (1 - barPadding))
  ⟨innerWidth, barStep, barWidth⟩

/-! ## Integer base-10 logarithm of a rational

`Math.floor(Math.log10(value))` and `Math.ceil(Math.log10(value))`,
modelled exactly.  (`natLog10` uses fuel so that it evaluates by kernel
reduction.) -/

/-- Base-10 logarithm of a natural number, fuelled. -/
def log10Fuel : ℕ → ℕ → ℕ
  | 0, _ => 0
  | fuel + 1, n => if n < 10 then 0 else log10Fuel fuel (n / 10) + 1

/-- `⌊log10 n⌋` for `1 ≤ n`. -/
def natLog10 (n : ℕ) : ℕ := log10Fuel n n

/-- `Math.floor(Math.log10 q)` for `0 < q`. -/
def posFloorLog10 (q : ℚ) : ℤ :=
  if 1 ≤ q then (natLog10 ⌊q⌋.toNat : ℤ)
  else
    let m := natLog10 ⌊q⁻¹⌋.toNat
    if q⁻¹ = (10 : ℚ) ^ m then -(m : ℤ) else -((m : ℤ) + 1)

/-- `Math.ceil(Math.log10 q)` for `0 < q`. -/
def ceilLog10 (q : ℚ) : ℤ :=
  let k := posFloorLog10 q
  if q = (10 : ℚ) ^ k then k else k + 1

/-- `Math.ceil` of an integer division (`Math.ceil(a / b)` for integer `a`,
positive integer `b`). -/
def intCeilDiv (a b : ℤ) : ℤ := -((-a).fdiv b)

/-- `a, a+1, …, b` (a JS `for (x = a; x <= b; x++)` loop). -/
def intRangeIncl (a b : ℤ) : List ℤ :=
  (List.range (b - a + 1).toNat).map fun i => a + ((i : ℕ) : ℤ)

/-! ## Nice-number linear tick planner (source: `niceNumberCeil` and the
linear branch of `renderChartPanel`) -/

/-- The multiplier list of `niceNumberCeil`. -/
def niceMults : List ℚ := [1, 2, 4, 5, 6, 8, 10]

/-- A "nice" axis step: an element of `{1,2,4,5,6,8,10} × 10^k`. -/
def IsNice (s : ℚ) : Prop := ∃ n ∈ niceMults, ∃ k : ℤ, s = n * (10 : ℚ) ^ k

/-- The multiplier-selection loop of `niceNumberCeil`: the first nice
multiplier `≥ normalized`, defaulting to 10. -/
def nicePick (x : ℚ) : ℚ :=
  if x ≤ 1 then 1
  else if x ≤ 2 then 2
  else if x ≤ 4 then 4
  else if x ≤ 5 then 5
  else if x ≤ 6 then 6
  else if x ≤ 8 then 8
  else 10

/--
`niceNumberCeil(value)` from the source:

```js
if (value <= 0) return 0;
const magnitude = Math.pow(10, Math.floor(Math.log10(value)));
const normalized = value / magnitude;
// first of [1, 2, 4, 5, 6, 8, 10] with normalized <= n, else 10
return niceNormalized * magnitude;
```
-/
def niceNumberCeil (value : ℚ) : ℚ :=
  if value ≤ 0 then 0
  else nicePick (value / (10 : ℚ) ^ posFloorLog10 value) * (10 : ℚ) ^ posFloorLog10 value

/-- The linear axis domain and ticks computed by `renderChartPanel`. -/
structure LinearPlan where
  minValue : ℚ
  maxValue : ℚ
  niceStep : ℚ
  ticks : List ℚ
deriving DecidableEq, Repr

/--
The linear branch of `renderChartPanel`:

```js
const rawRange = maxValue - minValue;
const rawStep = rawRange / tickCount;
const niceStep = niceNumberCeil(rawStep);
if (minValue !== 0) { minValue = Math.floor(minValue / niceStep) * niceStep; }
maxValue = minValue + (tickCount * niceStep);
for (let i = 0; i <= tickCount; i++) { tickValues.push(minValue + niceStep * i); }
```

(When flat data makes `niceStep = 0` and `minValue ≠ 0`, JS computes
`Math.floor(±Infinity) * 0 = NaN`; the exact-rational model yields `0`
there.  The degenerate input used in the claims keeps `minValue = 0`,
where the two semantics agree.)
-/
def planLinear (minValue0 maxValue0 : ℚ) (tickCount : ℕ) : LinearPlan :=
  let rawRange := maxValue0 - minValue0
  let rawStep := rawRange / (tickCount : ℚ)
  let niceStep := niceNumberCeil rawStep
  let minValue := if minValue0 ≠ 0 then (⌊minValue0 / niceStep⌋ : ℚ) * niceStep else minValue0
  let maxValue := minValue + (tickCount : ℚ) * niceStep
  ⟨minValue, maxValue, niceStep,
    (List.range (tickCount + 1)).map fun i => minValue + niceStep * ((i : ℕ) : ℚ)⟩

/--
The linear `yScale` of `renderChartPanel`:
`innerHeight - ((value - minValue) / (maxValue - minValue)) * innerHeight`.
(JS produces `NaN` when `maxValue == minValue`; in `ℚ`, `x / 0 = 0`.)
-/
def yScaleLinear (innerHeight minValue maxValue value : ℚ) : ℚ :=
  innerHeight - ((value - minValue) / (maxValue - minValue)) * innerHeight

/-! ## Logarithmic tick planner (source: the `useLogScale` branch of
`renderChartPanel`) -/

/-- The log axis domain and major ticks computed by `renderChartPanel`. -/
structure LogPlan where
  minValue : ℚ
  maxValue : ℚ
  ticks : List ℚ
deriving DecidableEq, Repr

/-- `minValue = Math.max(1, minValue)`. -/
def logMinValue (minValue0 : ℚ) : ℚ := max 1 minValue0

/-- `if (maxValue <= minValue) maxValue = minValue * 10`. -/
def logMaxValue (minValue0 maxValue0 : ℚ) : ℚ :=
  if maxValue0 ≤ logMinValue minValue0 then logMinValue minValue0 * 10 else maxValue0

/-- `minDecade = Math.floor(Math.log10(minValue))`. -/
def logMinDecade (minValue0 : ℚ) : ℤ := posFloorLog10 (logMinValue minValue0)

/-- `maxDecade = Math.ceil(Math.log10(maxValue))`. -/
def logMaxDecade (minValue0 maxValue0 : ℚ) : ℤ :=
  ceilLog10 (logMaxValue minValue0 maxValue0)

/-- `decadeStep = Math.max(1, Math.ceil(decadeRange / tickCount))`. -/
def logDecadeStep (minValue0 maxValue0 : ℚ) (tickCount : ℕ) : ℤ :=
  max 1 (intCeilDiv (logMaxDecade minValue0 maxValue0 - logMinDecade minValue0) (tickCount : ℤ))

/-- The decade-stepping loop plus the top-decade completion:

```js
for (let decade = minDecade; decade <= maxDecade; decade += decadeStep) { push(10^decade); }
if (tickValues[tickValues.length - 1] < maxDecadeValue) push(maxDecadeValue);
```
-/
def logTicksInitial (minDecade maxDecade decadeStep : ℤ) : List ℚ :=
  let base := (List.range ((maxDecade - minDecade).fdiv decadeStep).toNat.succ).map fun i =>
    (10 : ℚ) ^ (minDecade + ((i : ℕ) : ℤ) * decadeStep)
  let maxDecadeValue := (10 : ℚ) ^ maxDecade
  if base.getLast?.getD 0 < maxDecadeValue then base ++ [maxDecadeValue] else base

/-- The `{1,2,5} × 10^decade` refinement used when fewer than 3 ticks
came out of the decade loop, with its even-index subsampling. -/
def logTicksRefined (minDecade maxDecade : ℤ) (tickCount : ℕ) : List ℚ :=
  let newTicks := (intRangeIncl minDecade maxDecade).flatMap fun dec =>
    ([1, 2, 5] : List ℚ).filterMap fun mult =>
      let v := mult * (10 : ℚ) ^ dec
      if (10 : ℚ) ^ minDecade ≤ v ∧ v ≤ (10 : ℚ) ^ maxDecade then some v else none
  if tickCount + 1 < newTicks.length then
    (List.range (tickCount + 1)).map fun i =>
      newTicks.getD (jsRound (((i : ℕ) : ℚ) * ((newTicks.length : ℚ) - 1) / (tickCount : ℚ))).toNat 0
  else newTicks

/--
The log-scale major-tick computation of `renderChartPanel`:

```js
minValue = Math.max(1, minValue);
if (maxValue <= minValue) maxValue = minValue * 10;
const minDecade = Math.floor(Math.log10(minValue));
const maxDecade = Math.ceil(Math.log10(maxValue));
const decadeRange = maxDecade - minDecade;
let decadeStep = Math.max(1, Math.ceil(decadeRange / tickCount));
for (let decade = minDecade; decade <= maxDecade; decade += decadeStep) { push(10^decade); }
if (last < 10^maxDecade) push(10^maxDecade);
if (tickValues.length < 3 && decadeRange >= 1) { /* 1-2-5 refinement */ }
if (tickValues.length === 0) tickValues = [10^minDecade, 10^maxDecade];
minValue = Math.min(...tickValues); maxValue = Math.max(...tickValues);
```
-/
def planLog10 (minValue0 maxValue0 : ℚ) (tickCount : ℕ) : LogPlan :=
  let minDecade := logMinDecade minValue0
  let maxDecade := logMaxDecade minValue0 maxValue0
  let decadeRange := maxDecade - minDecade
  let ticks1 := logTicksInitial minDecade maxDecade (logDecadeStep minValue0 maxValue0 tickCount)
  let ticks2 :=
    if ticks1.length < 3 ∧ 1 ≤ decadeRange then logTicksRefined minDecade maxDecade tickCount
    else ticks1
  let ticks3 := if ticks2 = [] then [(10 : ℚ) ^ minDecade, (10 : ℚ) ^ maxDecade] else ticks2
  ⟨listMin ticks3, listMax ticks3, ticks3⟩

/-! ## Log-scale minor ticks (source: the minor-tick block of
`renderChartPanel`).  The pixel scale `yScale` is a parameter: the block
reads it from the enclosing closure. -/

/-- `getMaxIntermediatesForPosition`: `Math.round(4 * (1 - position / Math.max(1, numIntervals - 1)))`. -/
def getMaxIntermediatesForPosition (numIntervals position : ℕ) : ℤ :=
  jsRound (4 * (1 - (position : ℚ) / ((max 1 (numIntervals - 1) : ℕ) : ℚ)))

/-- The candidate intermediates of one interval: multipliers
`{2,…,9} × 10^decade` for every decade spanned, strictly between the
bounding majors and strictly inside the axis domain. -/
def logMinorCandidates (lowerTick upperTick minValue maxValue : ℚ) : List ℚ :=
  (intRangeIncl (posFloorLog10 lowerTick) (posFloorLog10 upperTick)).flatMap fun dec =>
    ([2, 3, 4, 5, 6, 7, 8, 9] : List ℚ).filterMap fun mult =>
      let v := mult * (10 : ℚ) ^ dec
      if lowerTick < v ∧ v < upperTick ∧ minValue < v ∧ v < maxValue then some v else none

/--
The even-index subsampling of the minor-tick block:
`idx = Math.round(j * (len - 1) / (maxCount - 1))` for `j < maxCount`,
applied only when more candidates exist than the cap.  (For
`maxCount = 1` the JS index is `0/0 = NaN`, `arr[NaN]` is `undefined`,
and the undefined entry is dropped by the subsequent distance filter;
the net selection is empty, which is what this returns.)
-/
def subsampleEven (l : List ℚ) (maxCount : ℕ) : List ℚ :=
  if l.length ≤ maxCount then l
  else if maxCount ≤ 1 then []
  else (List.range maxCount).map fun j =>
    l.getD (jsRound (((j : ℕ) : ℚ) * ((l.length : ℚ) - 1) / ((maxCount : ℚ) - 1))).toNat 0

/--
The per-interval minor-tick selection:

```js
const maxCount = getMaxIntermediatesForPosition(i);
if (maxCount === 0) continue;
/* collect allIntermediates, subsample to maxCount, then: */
const minDistance = innerHeight * 0.02;
selectedValues = selectedValues.filter(value =>
  majorTickYs.every(tickY => Math.abs(yScale(value) - tickY) > minDistance));
```
-/
def selectLogMinors (numIntervals i : ℕ) (lowerTick upperTick minValue maxValue innerHeight : ℚ)
    (yScale : ℚ → ℚ) (majorTickYs : List ℚ) : List ℚ :=
  let maxCount := getMaxIntermediatesForPosition numIntervals i
  if maxCount = 0 then []
  else
    let allIntermediates := logMinorCandidates lowerTick upperTick minValue maxValue
    let selectedValues := subsampleEven allIntermediates maxCount.toNat
    let minDistance := innerHeight * (2 / 100)
    selectedValues.filter fun value =>
      majorTickYs.all fun tickY => decide (minDistance < |yScale value - tickY|)

/-- The minor ticks drawn for the interval with index `i` of the sorted
major-tick list (`sortedTicks[i]`, `sortedTicks[i+1]`). -/
def logMinorTicksAt (sortedTicks : List ℚ) (minValue maxValue innerHeight : ℚ)
    (yScale : ℚ → ℚ) (i : ℕ) : List ℚ :=
  match sortedTicks.drop i with
  | lowerTick :: upperTick :: _ =>
    selectLogMinors (sortedTicks.length - 1) i lowerTick upperTick minValue maxValue
      innerHeight yScale (sortedTicks.map yScale)
  | _ => []

/-! ## Concrete inputs used by the claims -/

/-- An `AggRec` fed back into the aggregator (the `count` field of the
record is ignored on input). -/
def recToObs (r : AggRec) : RawObs :=
  ⟨.str r.date, r.value, some r.highValue, some r.lowValue⟩

/-- Two valid Day observations, out of date order, the first with
supplied-but-zero `highValue`/`lowValue`. -/
def c6Input : List RawObs :=
  [⟨.date ⟨2025, 1, 2⟩, 5, some 0, some 0⟩, ⟨.date ⟨2025, 1, 1⟩, 3, none, none⟩]

/-- A re-fed month record whose spread (`highValue ≠ value`) and
`count ≠ 1` the aggregator cannot reproduce. -/
def c4Input : List AggRec := [⟨"2025-01", 15, 20, 10, 2⟩]

/-- A pre-aggregated month record the aggregator does reproduce:
degenerate spread and unit count. -/
def c4Fixed : List AggRec := [⟨"2025-01", 15, 15, 15, 1⟩]

/-- Series A of the multi-series alignment example: days 1, 2, 3. -/
def seriesA : List SeriesObs := [⟨⟨2025, 1, 1⟩, 10⟩, ⟨⟨2025, 1, 2⟩, 20⟩, ⟨⟨2025, 1, 3⟩, 30⟩]

/-- Series B of the multi-series alignment example: days 1 and 3 only. -/
def seriesB : List SeriesObs := [⟨⟨2025, 1, 1⟩, 1⟩, ⟨⟨2025, 1, 3⟩, 3⟩]

/-! ## Facts about the key order `strLt` / `strLe` -/

theorem charToNat_inj {a b : Char} (h : a.toNat = b.toNat) : a = b := by
  apply Char.eq_of_val_eq
  have h' : a.val.toNat = b.val.toNat := h
  cases hv : a.val
  cases hw : b.val
  rw [hv, hw] at h'
  exact congrArg UInt32.mk (BitVec.eq_of_toNat_eq h')

theorem stringEq_of_dataEq {a b : String} (h : a.data = b.data) : a = b := by
  cases a
  cases b
  simp_all

theorem chLtB_irrefl (l : List Char) : chLtB l l = false := by
  induction l with
  | nil => rfl
  | cons a as ih => simp [chLtB, ih]

theorem chLtB_trans {a b c : List Char} (h1 : chLtB a b = true) (h2 : chLtB b c = true) :
    chLtB a c = true := by
  induction a generalizing b c with
  | nil =>
    cases c with
    | nil =>
      exfalso
      cases b <;> simp [chLtB] at h2
    | cons c0 cs => simp [chLtB]
  | cons a0 as ih =>
    cases b with
    | nil => simp [chLtB] at h1
    | cons b0 bs =>
      cases c with
      | nil => simp [chLtB] at h2
      | cons c0 cs =>
        simp only [chLtB] at h1 h2 ⊢
        by_cases hab : a0.toNat < b0.toNat
        · by_cases hbc : b0.toNat < c0.toNat
          · simp [Nat.lt_trans hab hbc]
          · by_cases hcb : c0.toNat < b0.toNat
            · simp [hbc, hcb] at h2
            · have hac : a0.toNat < c0.toNat := by omega
              simp [hac]
        · by_cases hba : b0.toNat < a0.toNat
          · simp [hab, hba] at h1
          · simp only [if_neg hab, if_neg hba] at h1
            by_cases hbc : b0.toNat < c0.toNat
            · have hac : a0.toNat < c0.toNat := by omega
              simp [hac]
            · by_cases hcb : c0.toNat < b0.toNat
              · simp [hbc, hcb] at h2
              · simp only [if_neg hbc, if_neg hcb] at h2
                have h3 : ¬ a0.toNat < c0.toNat := by omega
                have h4 : ¬ c0.toNat < a0.toNat := by omega
                simp [h3, h4, ih h1 h2]

theorem chLtB_tri (a b : List Char) : chLtB a b = true ∨ chLtB b a = true ∨ a = b := by
  induction a generalizing b with
  | nil =>
    cases b with
    | nil => right; right; rfl
    | cons b0 bs => left; simp [chLtB]
  | cons a0 as ih =>
    cases b with
    | nil => right; left; simp [chLtB]
    | cons b0 bs =>
      rcases Nat.lt_trichotomy a0.toNat b0.toNat with hlt | heq | hgt
      · left
        simp [chLtB, hlt]
      · rcases ih bs with h | h | h
        · left
          simp [chLtB, heq, h]
        · right; left
          simp [chLtB, heq.symm, h]
        · right; right
          rw [charToNat_inj heq, h]
      · right; left
        simp [chLtB, hgt]

theorem strLt_asymm {a b : String} (h : strLt a b) : ¬ strLt b a := by
  intro h'
  have := chLtB_trans h h'
  rw [chLtB_irrefl] at this
  exact absurd this (by simp)

theorem strLt_ne {a b : String} (h : strLt a b) : a ≠ b := by
  intro h'
  subst h'
  unfold strLt at h
  rw [chLtB_irrefl] at h
  exact absurd h (by simp)

theorem strLe_of_strLt {a b : String} (h : strLt a b) : strLe a b := by
  unfold strLe
  by_contra h'
  exact strLt_asymm h (by simpa [strLt] using h')

theorem strLt_of_strLe_of_ne {a b : String} (h : strLe a b) (hne : a ≠ b) : strLt a b := by
  rcases chLtB_tri a.data b.data with h1 | h1 | h1
  · exact h1
  · exact absurd h1 (by simpa [strLe] using h)
  · exact absurd (stringEq_of_dataEq h1) hne

theorem strLe_total (a b : String) : strLe a b ∨ strLe b a := by
  by_contra h
  push_neg at h
  have h1 : strLt b a := by simpa [strLt, strLe] using h.1
  have h2 : strLt a b := by simpa [strLt, strLe] using h.2
  exact strLt_asymm h1 h2

theorem strLe_trans {a b c : String} (h1 : strLe a b) (h2 : strLe b c) : strLe a c := by
  unfold strLe at h1 h2 ⊢
  by_contra h
  have hca : chLtB c.data a.data = true := by simpa using h
  rcases chLtB_tri b.data a.data with g | g | g
  · exact absurd g (by simpa using h1)
  · have := chLtB_trans hca g
    exact absurd this (by simpa using h2)
  · rw [← g] at hca
    exact absurd hca (by simpa using h2)

instance : IsTotal AggRec aggRecLe := ⟨fun a b => strLe_total a.date b.date⟩

instance : IsTrans AggRec aggRecLe := ⟨fun _ _ _ h1 h2 => strLe_trans h1 h2⟩

instance : IsTotal MultiRec multiRecLe := ⟨fun a b => strLe_total a.date b.date⟩

instance : IsTrans MultiRec multiRecLe := ⟨fun _ _ _ h1 h2 => strLe_trans h1 h2⟩

/-- Lax pairwise order plus distinctness gives strict pairwise order. -/
theorem pairwise_strLt_of_le_nodup {l : List String}
    (h1 : l.Pairwise strLe) (h2 : l.Nodup) : l.Pairwise strLt :=
  (h1.and h2).imp fun h => strLt_of_strLe_of_ne h.1 h.2

/-! ## Facts about `dedupFirst` -/

theorem dedupFirstAux_mem {x : String} : ∀ {l seen : List String},
    x ∈ dedupFirstAux seen l ↔ x ∈ l ∧ x ∉ seen := by
  intro l
  induction l with
  | nil => intro seen; simp [dedupFirstAux]
  | cons k ks ih =>
    intro seen
    rw [dedupFirstAux]
    by_cases hk : k ∈ seen
    · rw [if_pos hk, ih]
      constructor
      · rintro ⟨h1, h2⟩
        exact ⟨List.mem_cons_of_mem _ h1, h2⟩
      · rintro ⟨h1, h2⟩
        rcases List.mem_cons.mp h1 with rfl | h1'
        · exact absurd hk h2
        · exact ⟨h1', h2⟩
    · rw [if_neg hk]
      by_cases hx : x = k
      · subst hx
        simp [hk]
      · constructor
        · intro hmem
          rcases List.mem_cons.mp hmem with rfl | hmem'
          · exact absurd rfl hx
          · obtain ⟨h1, h2⟩ := ih.mp hmem'
            exact ⟨List.mem_cons_of_mem _ h1, fun hs => h2 (List.mem_cons_of_mem _ hs)⟩
        · rintro ⟨h1, h2⟩
          have h1' : x ∈ ks := by
            rcases List.mem_cons.mp h1 with rfl | hh
            · exact absurd rfl hx
            · exact hh
          refine List.mem_cons_of_mem _ (ih.mpr ⟨h1', ?_⟩)
          intro hmem
          rcases List.mem_cons.mp hmem with rfl | hs
          · exact hx rfl
          · exact h2 hs

theorem dedupFirst_mem {x : String} {l : List String} : x ∈ dedupFirst l ↔ x ∈ l := by
  unfold dedupFirst
  rw [dedupFirstAux_mem]
  simp

theorem dedupFirstAux_nodup : ∀ (l seen : List String), (dedupFirstAux seen l).Nodup := by
  intro l
  induction l with
  | nil => intro seen; simp [dedupFirstAux]
  | cons k ks ih =>
    intro seen
    rw [dedupFirstAux]
    by_cases hk : k ∈ seen
    · rw [if_pos hk]
      exact ih seen
    · rw [if_neg hk]
      refine List.nodup_cons.mpr ⟨?_, ih (k :: seen)⟩
      intro hmem
      exact (dedupFirstAux_mem.mp hmem).2 (List.mem_cons_self k seen)

theorem dedupFirst_nodup (l : List String) : (dedupFirst l).Nodup :=
  dedupFirstAux_nodup l []

theorem dedupFirstAux_eq_self : ∀ {l seen : List String}, l.Nodup →
    (∀ x ∈ l, x ∉ seen) → dedupFirstAux seen l = l := by
  intro l
  induction l with
  | nil => intro seen _ _; rfl
  | cons k ks ih =>
    intro seen h hseen
    rcases List.nodup_cons.mp h with ⟨hk, hks⟩
    rw [dedupFirstAux, if_neg (hseen k (List.mem_cons_self k ks))]
    congr 1
    refine ih hks ?_
    intro x hx
    intro hmem
    rcases List.mem_cons.mp hmem with rfl | hmem'
    · exact hk hx
    · exact hseen x (List.mem_cons_of_mem _ hx) hmem'

theorem dedupFirst_eq_self {l : List String} (h : l.Nodup) : dedupFirst l = l :=
  dedupFirstAux_eq_self h (by simp)

/-! ## Generic list helpers -/

theorem filterMap_eq_map_of_forall {α β : Type} (f : α → Option β) (g : α → β)
    (l : List α) (h : ∀ a ∈ l, f a = some (g a)) : l.filterMap f = l.map g := by
  induction l with
  | nil => rfl
  | cons a as ih =>
    rw [List.filterMap_cons, h a (by simp), List.map_cons,
      ih fun x hx => h x (List.mem_cons_of_mem _ hx)]

theorem filter_keyEq_singleton {α : Type} [DecidableEq α] (key : α → String)
    (l : List α) (hnd : (l.map key).Nodup) (a : α) (ha : a ∈ l) :
    l.filter (fun x => key x = key a) = [a] := by
  induction l with
  | nil => simp at ha
  | cons b bs ih =>
    rw [List.map_cons] at hnd
    rcases List.nodup_cons.mp hnd with ⟨hb, hbs⟩
    rcases List.mem_cons.mp ha with rfl | ha'
    · rw [List.filter_cons_of_pos (by simp)]
      have : bs.filter (fun x => key x = key a) = [] := by
        refine List.filter_eq_nil_iff.mpr ?_
        intro x hx
        simp only [decide_eq_true_eq]
        intro hxa
        exact hb (hxa ▸ List.mem_map_of_mem key hx)
      rw [this]
    · have hba : key b ≠ key a := by
        intro hk
        exact hb (hk ▸ List.mem_map_of_mem key ha')
      rw [List.filter_cons_of_neg (by simpa using hba), ih hbs ha']

/-! ## Correctness of the integer base-10 logarithm -/

theorem log10Fuel_bounds (fuel : ℕ) : ∀ n : ℕ, n ≤ fuel → 1 ≤ n →
    10 ^ log10Fuel fuel n ≤ n ∧ n < 10 ^ (log10Fuel fuel n + 1) := by
  induction fuel with
  | zero => intro n h1 h2; omega
  | succ f ih =>
    intro n hn h1
    rw [log10Fuel]
    by_cases h10 : n < 10
    · rw [if_pos h10]
      simpa using ⟨h1, h10⟩
    · rw [if_neg h10]
      have hm1 : 1 ≤ n / 10 := by omega
      have hmf : n / 10 ≤ f := by omega
      obtain ⟨hl, hr⟩ := ih (n / 10) hmf hm1
      have e1 : (10 : ℕ) ^ (log10Fuel f (n / 10) + 1) = 10 * 10 ^ log10Fuel f (n / 10) := by
        rw [pow_succ]; ring
      have e2 : (10 : ℕ) ^ (log10Fuel f (n / 10) + 1 + 1) =
          10 * 10 ^ (log10Fuel f (n / 10) + 1) := by
        rw [pow_succ _ (log10Fuel f (n / 10) + 1)]; ring
      omega

theorem natLog10_bounds {n : ℕ} (h : 1 ≤ n) :
    10 ^ natLog10 n ≤ n ∧ n < 10 ^ (natLog10 n + 1) :=
  log10Fuel_bounds n n le_rfl h

theorem posFloorLog10_bounds {q : ℚ} (hq : 0 < q) :
    (10 : ℚ) ^ posFloorLog10 q ≤ q ∧ q < (10 : ℚ) ^ (posFloorLog10 q + 1) := by
  unfold posFloorLog10
  by_cases h1 : 1 ≤ q
  · rw [if_pos h1]
    have hfl : (1 : ℤ) ≤ ⌊q⌋ := by
      rw [Int.le_floor]; exact_mod_cast h1
    have hn1 : 1 ≤ ⌊q⌋.toNat := by omega
    obtain ⟨hl, hr⟩ := natLog10_bounds hn1
    have hcast : ((⌊q⌋.toNat : ℕ) : ℚ) = (⌊q⌋ : ℚ) := by
      exact_mod_cast Int.toNat_of_nonneg (show (0 : ℤ) ≤ ⌊q⌋ by omega)
    constructor
    · rw [zpow_natCast]
      calc (10 : ℚ) ^ natLog10 ⌊q⌋.toNat = ((10 ^ natLog10 ⌊q⌋.toNat : ℕ) : ℚ) := by push_cast; ring
        _ ≤ ((⌊q⌋.toNat : ℕ) : ℚ) := by exact_mod_cast hl
        _ = (⌊q⌋ : ℚ) := hcast
        _ ≤ q := Int.floor_le q
    · have hq1 : q < (⌊q⌋ : ℚ) + 1 := Int.lt_floor_add_one q
      have hstep : ((⌊q⌋.toNat : ℚ) : ℚ) + 1 ≤ ((10 ^ (natLog10 ⌊q⌋.toNat + 1) : ℕ) : ℚ) := by
        exact_mod_cast hr
      have hze : ((natLog10 ⌊q⌋.toNat : ℤ) + 1) = ((natLog10 ⌊q⌋.toNat + 1 : ℕ) : ℤ) := by
        push_cast; ring
      rw [hze, zpow_natCast]
      calc q < (⌊q⌋ : ℚ) + 1 := hq1
        _ = ((⌊q⌋.toNat : ℕ) : ℚ) + 1 := by rw [hcast]
        _ ≤ ((10 ^ (natLog10 ⌊q⌋.toNat + 1) : ℕ) : ℚ) := hstep
        _ = (10 : ℚ) ^ (natLog10 ⌊q⌋.toNat + 1) := by push_cast; ring
  · rw [if_neg h1]
    push_neg at h1
    have htpos : 0 < q⁻¹ := inv_pos.mpr hq
    have ht1 : 1 < q⁻¹ := by
      rw [lt_inv_comm₀ one_pos hq]
      simpa using h1
    have hfl : (1 : ℤ) ≤ ⌊q⁻¹⌋ := by
      rw [Int.le_floor]
      exact_mod_cast ht1.le
    have hn1 : 1 ≤ ⌊q⁻¹⌋.toNat := by omega
    obtain ⟨hl, hr⟩ := natLog10_bounds hn1
    have hcast : ((⌊q⁻¹⌋.toNat : ℕ) : ℚ) = ((⌊q⁻¹⌋ : ℤ) : ℚ) := by
      exact_mod_cast Int.toNat_of_nonneg (show (0 : ℤ) ≤ ⌊q⁻¹⌋ by omega)
    have hlow : (10 : ℚ) ^ natLog10 ⌊q⁻¹⌋.toNat ≤ q⁻¹ := by
      calc (10 : ℚ) ^ natLog10 ⌊q⁻¹⌋.toNat = ((10 ^ natLog10 ⌊q⁻¹⌋.toNat : ℕ) : ℚ) := by
            push_cast; ring
        _ ≤ ((⌊q⁻¹⌋.toNat : ℕ) : ℚ) := by exact_mod_cast hl
        _ = ((⌊q⁻¹⌋ : ℤ) : ℚ) := hcast
        _ ≤ q⁻¹ := Int.floor_le _
    have hhigh : q⁻¹ < (10 : ℚ) ^ (natLog10 ⌊q⁻¹⌋.toNat + 1) := by
      calc q⁻¹ < ((⌊q⁻¹⌋ : ℤ) : ℚ) + 1 := Int.lt_floor_add_one _
        _ = ((⌊q⁻¹⌋.toNat : ℕ) : ℚ) + 1 := by rw [hcast]
        _ ≤ ((10 ^ (natLog10 ⌊q⁻¹⌋.toNat + 1) : ℕ) : ℚ) := by exact_mod_cast hr
        _ = (10 : ℚ) ^ (natLog10 ⌊q⁻¹⌋.toNat + 1) := by push_cast; ring
    set m := natLog10 ⌊q⁻¹⌋.toNat with hm
    by_cases he : q⁻¹ = (10 : ℚ) ^ m
    · rw [if_pos he]
      have hqe : q = (10 : ℚ) ^ (-(m : ℤ)) := by
        rw [zpow_neg, zpow_natCast, ← he, inv_inv]
      constructor
      · rw [hqe]
      · rw [hqe]
        exact zpow_lt_zpow_right₀ (by norm_num) (by omega)
    · rw [if_neg he]
      have hlow' : (10 : ℚ) ^ m < q⁻¹ := lt_of_le_of_ne hlow (Ne.symm he)
      constructor
      · have : q⁻¹ ≤ (10 : ℚ) ^ (m + 1) := hhigh.le
        have h2 : ((10 : ℚ) ^ (m + 1))⁻¹ ≤ q := by
          rw [← inv_inv q]
          exact inv_anti₀ htpos this
        calc (10 : ℚ) ^ (-((m : ℤ) + 1)) = ((10 : ℚ) ^ ((m : ℤ) + 1))⁻¹ := by
              rw [zpow_neg]
          _ = ((10 : ℚ) ^ (m + 1))⁻¹ := by
              norm_cast
          _ ≤ q := h2
      · have h2 : q < ((10 : ℚ) ^ m)⁻¹ := by
          rw [← inv_inv q]
          exact inv_strictAnti₀ (pow_pos (show (0 : ℚ) < 10 by norm_num) m) hlow'
        have he2 : -((m : ℤ) + 1) + 1 = -(m : ℤ) := by ring
        have h3 : (10 : ℚ) ^ (-((m : ℤ) + 1) + 1) = ((10 : ℚ) ^ m)⁻¹ := by
          rw [he2, zpow_neg, zpow_natCast]
        rw [h3]
        exact h2

/-! ## Correctness of `niceNumberCeil` -/

theorem nicePick_mem (x : ℚ) : nicePick x ∈ niceMults := by
  unfold nicePick niceMults
  split_ifs <;> simp

theorem nicePick_le_ten (x : ℚ) : nicePick x ≤ 10 := by
  unfold nicePick
  split_ifs <;> norm_num

theorem one_le_nicePick (x : ℚ) : 1 ≤ nicePick x := by
  unfold nicePick
  split_ifs <;> norm_num

theorem le_nicePick {x : ℚ} (h : x ≤ 10) : x ≤ nicePick x := by
  unfold nicePick
  split_ifs <;> linarith

theorem nicePick_min {x n : ℚ} (hn : n ∈ niceMults) (h : x ≤ n) : nicePick x ≤ n := by
  unfold niceMults at hn
  simp only [List.mem_cons, List.mem_singleton, List.not_mem_nil, or_false] at hn
  unfold nicePick
  rcases hn with rfl | rfl | rfl | rfl | rfl | rfl | rfl <;> split_ifs <;> linarith

theorem niceMults_one_le {n : ℚ} (hn : n ∈ niceMults) : 1 ≤ n := by
  unfold niceMults at hn
  simp only [List.mem_cons, List.mem_singleton, List.not_mem_nil, or_false] at hn
  rcases hn with rfl | rfl | rfl | rfl | rfl | rfl | rfl <;> norm_num

theorem niceMults_le_ten {n : ℚ} (hn : n ∈ niceMults) : n ≤ 10 := by
  unfold niceMults at hn
  simp only [List.mem_cons, List.mem_singleton, List.not_mem_nil, or_false] at hn
  rcases hn with rfl | rfl | rfl | rfl | rfl | rfl | rfl <;> norm_num

/-- `niceNumberCeil` really is the nice *ceiling*: on a positive input
it returns a nice number, at least as large as the input, and no larger
than any other nice number that is at least the input. -/
theorem niceNumberCeil_spec {v : ℚ} (hv : 0 < v) :
    IsNice (niceNumberCeil v) ∧ v ≤ niceNumberCeil v ∧
      ∀ s, IsNice s → v ≤ s → niceNumberCeil v ≤ s := by
  obtain ⟨hl, hr⟩ := posFloorLog10_bounds hv
  unfold niceNumberCeil
  rw [if_neg (not_le.mpr hv)]
  set k := posFloorLog10 v with hk
  have hmagpos : (0 : ℚ) < 10 ^ k := zpow_pos (by norm_num) k
  set x := v / (10 : ℚ) ^ k with hx
  have hveq : v = x * (10 : ℚ) ^ k := by
    rw [hx]
    field_simp
  have hx1 : 1 ≤ x := (one_le_div hmagpos).mpr hl
  have hx10 : x < 10 := by
    rw [div_lt_iff₀ hmagpos]
    calc v < (10 : ℚ) ^ (k + 1) := hr
      _ = 10 * 10 ^ k := by rw [zpow_add_one₀ (by norm_num : (10 : ℚ) ≠ 0)]; ring
  refine ⟨⟨nicePick x, nicePick_mem x, k, rfl⟩, ?_, ?_⟩
  · calc v = x * (10 : ℚ) ^ k := hveq
      _ ≤ nicePick x * (10 : ℚ) ^ k :=
        mul_le_mul_of_nonneg_right (le_nicePick hx10.le) hmagpos.le
  · rintro s ⟨n, hn, j, rfl⟩ hvs
    have hn1 : 1 ≤ n := niceMults_one_le hn
    have hn10 : n ≤ 10 := niceMults_le_ten hn
    have hjpos : (0 : ℚ) < 10 ^ j := zpow_pos (by norm_num) j
    rcases lt_trichotomy j k with hj | rfl | hj
    · -- the candidate sits at least one magnitude below: it can only be
      -- at least `v` when everything collapses to `v = 10^k`
      have hcand : n * (10 : ℚ) ^ j ≤ (10 : ℚ) ^ k := by
        calc n * (10 : ℚ) ^ j ≤ 10 * (10 : ℚ) ^ j :=
              mul_le_mul_of_nonneg_right hn10 hjpos.le
          _ = (10 : ℚ) ^ (j + 1) := by
              rw [zpow_add_one₀ (by norm_num : (10 : ℚ) ≠ 0)]; ring
          _ ≤ (10 : ℚ) ^ k := zpow_le_zpow_right₀ (by norm_num) (by omega)
      have hveq10 : v = (10 : ℚ) ^ k := le_antisymm (le_trans hvs hcand) hl
      have hxone : x = 1 := by
        rw [hx, hveq10, div_self (ne_of_gt hmagpos)]
      rw [hxone]
      have hp1 : nicePick (1 : ℚ) = 1 := by norm_num [nicePick]
      rw [hp1, one_mul]
      calc (10 : ℚ) ^ k = v := hveq10.symm
        _ ≤ n * (10 : ℚ) ^ j := hvs
    · have hxn : x ≤ n := by
        rw [hx, div_le_iff₀ hmagpos]
        exact hvs
      exact mul_le_mul_of_nonneg_right (nicePick_min hn hxn) hmagpos.le
    · calc nicePick x * (10 : ℚ) ^ k ≤ 10 * (10 : ℚ) ^ k :=
            mul_le_mul_of_nonneg_right (nicePick_le_ten x) hmagpos.le
        _ = (10 : ℚ) ^ (k + 1) := by
            rw [zpow_add_one₀ (by norm_num : (10 : ℚ) ≠ 0)]; ring
        _ ≤ (10 : ℚ) ^ j := zpow_le_zpow_right₀ (by norm_num) (by omega)
        _ ≤ n * (10 : ℚ) ^ j := le_mul_of_one_le_left hjpos.le hn1

/-! ## Shared concrete evaluations -/

theorem natLog10_one : natLog10 1 = 0 := by decide

theorem posFloorLog10_sevenFifths : posFloorLog10 (7 / 5) = 0 := by
  norm_num [posFloorLog10, natLog10_one]

theorem planLinear_eval_0_7_5 : planLinear 0 7 5 = ⟨0, 10, 2, [0, 2, 4, 6, 8, 10]⟩ := by
  have h1 : niceNumberCeil ((7 : ℚ) / 5) = 2 := by
    norm_num [niceNumberCeil, posFloorLog10_sevenFifths, nicePick]
  norm_num [planLinear, h1, List.range_succ]

theorem planLinear_eval_flat : planLinear 0 0 5 = ⟨0, 0, 0, [0, 0, 0, 0, 0, 0]⟩ := by
  norm_num [planLinear, niceNumberCeil, List.range_succ]

/-! ## Claim C1 — the Week bucket key

The week *number* of `getWeek` follows the ISO nearest-Thursday rule,
but `formatWeek` pairs it with `date.getFullYear()` — the date's own
calendar year — rather than the ISO week-year (the calendar year of the
Thursday of the date's week).  At the year-boundary cases named by the
claim the produced keys are `2024-W01` and `2023-W52`, not the claimed
`2025-W01` and `2022-W52`. -/

/-- C1: at the claim's own example dates the code's Week bucket key uses
the timestamp's calendar year, not the ISO week-year: `2024-12-31 ↦
"2024-W01"` (the ISO key is `"2025-W01"`) and `2023-01-01 ↦ "2023-W52"`
(sic: the ISO key is `"2022-W52"`); the week numbers themselves match
the ISO rule. -/
theorem formatWeek_uses_calendar_year_not_iso_year :
    formatWeek ⟨2024, 12, 31⟩ = "2024-W01" ∧ formatWeek ⟨2023, 1, 1⟩ = "2023-W52" ∧
    isoWeekKeySpec ⟨2024, 12, 31⟩ = "2025-W01" ∧ isoWeekKeySpec ⟨2023, 1, 1⟩ = "2022-W52" ∧
    formatWeek ⟨2024, 12, 31⟩ ≠ isoWeekKeySpec ⟨2024, 12, 31⟩ ∧
    getWeek ⟨2024, 12, 31⟩ = 1 ∧ getWeek ⟨2023, 1, 1⟩ = 52 := by
  decide

/-! ## Claim C2 — the nice-number linear planner -/

/-- C2 (amended): for every linear axis with `min < max` and
`tickCount = 5`, `niceStep` is the smallest element of
`{1,2,4,5,6,8,10} × 10^k` that is `≥ (max − min) / 5`, a nonzero `min`
is snapped down to `⌊min/niceStep⌋ * niceStep`, the final `max` is
`min + 5 * niceStep`, and the planner emits the `tickCount + 1` ticks
`min + i * niceStep`; in particular `planLinear 0 7 5` yields
`niceStep = 2`, ticks `[0,2,4,6,8,10]` and domain max `10`. -/
theorem planLinear_niceStep_spec (minV maxV : ℚ) (h : minV < maxV) :
    IsNice (planLinear minV maxV 5).niceStep ∧
    (maxV - minV) / 5 ≤ (planLinear minV maxV 5).niceStep ∧
    (∀ s, IsNice s → (maxV - minV) / 5 ≤ s → (planLinear minV maxV 5).niceStep ≤ s) ∧
    (planLinear minV maxV 5).minValue =
      (if minV ≠ 0 then (⌊minV / (planLinear minV maxV 5).niceStep⌋ : ℚ) *
        (planLinear minV maxV 5).niceStep
       else minV) ∧
    (planLinear minV maxV 5).maxValue =
      (planLinear minV maxV 5).minValue + 5 * (planLinear minV maxV 5).niceStep ∧
    (planLinear minV maxV 5).ticks =
      (List.range 6).map (fun i => (planLinear minV maxV 5).minValue +
        (planLinear minV maxV 5).niceStep * ((i : ℕ) : ℚ)) ∧
    planLinear 0 7 5 = ⟨0, 10, 2, [0, 2, 4, 6, 8, 10]⟩ := by
  have hstep : (planLinear minV maxV 5).niceStep = niceNumberCeil ((maxV - minV) / 5) := by
    norm_num [planLinear]
  have hraw : (0 : ℚ) < (maxV - minV) / 5 := by
    apply div_pos (by linarith) (by norm_num)
  obtain ⟨h1, h2, h3⟩ := niceNumberCeil_spec hraw
  refine ⟨hstep ▸ h1, hstep ▸ h2, fun s hs hvs => hstep ▸ h3 s hs hvs, ?_, ?_, ?_,
    planLinear_eval_0_7_5⟩
  · rw [hstep]
    norm_num [planLinear]
  · rw [hstep]
    norm_num [planLinear]
  · rw [hstep]
    norm_num [planLinear]

/-- C2 counterexample: the claim's tick list for `planLinear 0 7 5`
omits the last tick — the code emits `tickCount + 1 = 6` ticks
`[0,2,4,6,8,10]`, not `[0,2,4,6,8]`. -/
theorem planLinear_claimed_ticks_counterexample :
    (planLinear 0 7 5).ticks = [0, 2, 4, 6, 8, 10] ∧
    (planLinear 0 7 5).ticks ≠ [0, 2, 4, 6, 8] := by
  rw [planLinear_eval_0_7_5]
  refine ⟨rfl, by simp⟩

/-- C2 witness: the amended claim at the concrete input `0 < 7`. -/
theorem planLinear_niceStep_spec_witness :
    (0 : ℚ) < 7 ∧
    (IsNice (planLinear 0 7 5).niceStep ∧
    ((7 : ℚ) - 0) / 5 ≤ (planLinear 0 7 5).niceStep ∧
    (∀ s, IsNice s → ((7 : ℚ) - 0) / 5 ≤ s → (planLinear 0 7 5).niceStep ≤ s) ∧
    (planLinear 0 7 5).minValue =
      (if (0 : ℚ) ≠ 0 then (⌊(0 : ℚ) / (planLinear 0 7 5).niceStep⌋ : ℚ) *
        (planLinear 0 7 5).niceStep
       else 0) ∧
    (planLinear 0 7 5).maxValue =
      (planLinear 0 7 5).minValue + 5 * (planLinear 0 7 5).niceStep ∧
    (planLinear 0 7 5).ticks =
      (List.range 6).map (fun i => (planLinear 0 7 5).minValue +
        (planLinear 0 7 5).niceStep * ((i : ℕ) : ℚ)) ∧
    planLinear 0 7 5 = ⟨0, 10, 2, [0, 2, 4, 6, 8, 10]⟩) :=
  ⟨by norm_num, planLinear_niceStep_spec 0 7 (by norm_num)⟩

/-! ## Claim C3 — degenerate (flat) linear ranges

The spec requires a fallback span for `rawStep ≤ 0`, but the linear
branch has none: `niceNumberCeil` returns `0` for a non-positive input,
so flat data anchored at zero produces the domain `min = max = 0` and
the linear `yScale` divides by `maxValue - minValue = 0` (`NaN` in JS;
`x / 0 = 0` in the exact model). -/

/-- C3: on flat all-zero data (`min = max = 0`, the linear branch) the
planner produces a zero-width domain — `max > min` fails and the scale
denominator `maxValue - minValue` is `0`, with no fallback span
substituted. -/
theorem planLinear_flat_zero_degenerate :
    planLinear 0 0 5 = ⟨0, 0, 0, [0, 0, 0, 0, 0, 0]⟩ ∧
    ¬ (planLinear 0 0 5).minValue < (planLinear 0 0 5).maxValue ∧
    (planLinear 0 0 5).maxValue - (planLinear 0 0 5).minValue = 0 := by
  rw [planLinear_eval_flat]
  norm_num

/-! ## Claim C10 — the layout planner -/

/-- C10: for `bucketCount ≥ 1` the plan satisfies
`innerWidth = max(visibleWidth − margins, bucketCount * minBarWidth / (1 − 0.2))`,
`barStep = innerWidth / bucketCount`, `barWidth = max(1, barStep * 0.8) ≥ 1`;
in particular `bucketCount = 700, minBarWidth = 6, visibleWidth = 800,
margins 70/10` gives `innerWidth = 5250 > 720`, exceeding the viewport. -/
theorem planLayout_spec (barCount : ℕ) (visibleWidth marginLeft marginRight barMinWidth : ℚ)
    (h : 1 ≤ barCount) :
    (planLayout barCount visibleWidth marginLeft marginRight barMinWidth).innerWidth =
      max (visibleWidth - marginLeft - marginRight)
        ((barCount : ℚ) * barMinWidth / (1 - 2 / 10)) ∧
    (planLayout barCount visibleWidth marginLeft marginRight barMinWidth).barStep =
      (planLayout barCount visibleWidth marginLeft marginRight barMinWidth).innerWidth /
        (barCount : ℚ) ∧
    (planLayout barCount visibleWidth marginLeft marginRight barMinWidth).barWidth =
      max 1 ((planLayout barCount visibleWidth marginLeft marginRight barMinWidth).barStep *
        (1 - 2 / 10)) ∧
    1 ≤ (planLayout barCount visibleWidth marginLeft marginRight barMinWidth).barWidth ∧
    (planLayout 700 800 70 10 6).innerWidth = 5250 ∧
    (5250 : ℚ) ≤ (planLayout 700 800 70 10 6).innerWidth ∧
    800 - 70 - 10 < (planLayout 700 800 70 10 6).innerWidth := by
  have hinst : (planLayout 700 800 70 10 6).innerWidth = 5250 := by
    norm_num [planLayout]
  refine ⟨rfl, rfl, rfl, le_max_left 1 _, hinst, by rw [hinst], by rw [hinst]; norm_num⟩

/-- C10 witness: the scrolling-trigger configuration of the claim. -/
theorem planLayout_spec_witness :
    1 ≤ 700 ∧
    ((planLayout 700 800 70 10 6).innerWidth =
      max ((800 : ℚ) - 70 - 10) ((700 : ℚ) * 6 / (1 - 2 / 10)) ∧
    (planLayout 700 800 70 10 6).barStep =
      (planLayout 700 800 70 10 6).innerWidth / (700 : ℚ) ∧
    (planLayout 700 800 70 10 6).barWidth =
      max 1 ((planLayout 700 800 70 10 6).barStep * (1 - 2 / 10)) ∧
    1 ≤ (planLayout 700 800 70 10 6).barWidth ∧
    (planLayout 700 800 70 10 6).innerWidth = 5250 ∧
    (5250 : ℚ) ≤ (planLayout 700 800 70 10 6).innerWidth ∧
    800 - 70 - 10 < (planLayout 700 800 70 10 6).innerWidth) :=
  ⟨by norm_num, planLayout_spec 700 800 70 10 6 (by norm_num)⟩

/-! ## Claim C5 — output bucket keys are strictly ascending -/

theorem aggregates_eq (data : List RawObs) (mode : AggMode) :
    aggregates data mode =
      List.insertionSort aggRecLe
        ((dedupFirst ((aggKeyed data mode).map Prod.fst)).map (aggGroupRec (aggKeyed data mode))) :=
  rfl

/-- C5: for every aggregation input and mode, the bucket keys of the
output records are strictly ascending in lexicographic string order
(hence unique — one record per distinct bucket key). -/
theorem aggregates_keys_strictly_ascending (data : List RawObs) (mode : AggMode) :
    ((aggregates data mode).map AggRec.date).Pairwise strLt ∧
    ((aggregates data mode).map AggRec.date).Nodup := by
  rw [aggregates_eq]
  set keyed := aggKeyed data mode with hkeyed
  set result := (dedupFirst (keyed.map Prod.fst)).map (aggGroupRec keyed) with hres
  have hsorted : List.Pairwise aggRecLe (List.insertionSort aggRecLe result) :=
    List.sorted_insertionSort aggRecLe result
  have hle : ((List.insertionSort aggRecLe result).map AggRec.date).Pairwise strLe :=
    List.pairwise_map.mpr hsorted
  have hkeys : result.map AggRec.date = dedupFirst (keyed.map Prod.fst) := by
    rw [hres, List.map_map]
    have he : (AggRec.date ∘ aggGroupRec keyed) = fun k => k := rfl
    rw [he]
    exact List.map_id _
  have hperm : ((List.insertionSort aggRecLe result).map AggRec.date).Perm
      (result.map AggRec.date) := (List.perm_insertionSort aggRecLe result).map AggRec.date
  have hnd : ((List.insertionSort aggRecLe result).map AggRec.date).Nodup := by
    rw [hperm.nodup_iff, hkeys]
    exact dedupFirst_nodup _
  exact ⟨pairwise_strLt_of_le_nodup hle hnd, hnd⟩

/-! ## Claim C6 — the Day-mode passthrough -/

/-- C6 (amended): on a list of valid observations the passthrough emits
exactly one record per observation *in input order* (it never sorts),
with `count = 1`, and with `highValue`/`lowValue` equal to the supplied
field when it is present *and nonzero*, and equal to `value` when the
field is absent — or when the supplied value is `0`, because the code
uses the falsy-coalescing `d.highValue || d.value`. -/
theorem passthroughDay_spec (data : List RawObs)
    (h : ∀ r ∈ data, (parseInput r.date).isSome) :
    passthroughDay data = data.map (fun r =>
      { date := dayKey ((parseInput r.date).getD ⟨1970, 1, 1⟩),
        value := r.value,
        highValue := match r.highValue with
          | some hv => if hv = 0 then r.value else hv
          | none => r.value,
        lowValue := match r.lowValue with
          | some lv => if lv = 0 then r.value else lv
          | none => r.value,
        count := 1 }) := by
  unfold passthroughDay
  apply filterMap_eq_map_of_forall
  intro r hr
  obtain ⟨x, hx⟩ := Option.isSome_iff_exists.mp (h r hr)
  rw [hx]
  rfl

/-- C6 counterexample: for the valid input `c6Input` (first observation
dated 2025-01-02 with supplied `highValue = lowValue = 0` and
`value = 5`, second dated 2025-01-01) the emitted records replace the
supplied `0` by `value` and stay in input order, so they are not sorted
by date key. -/
theorem passthroughDay_counterexample :
    passthroughDay c6Input =
      [⟨"2025-01-02", 5, 5, 5, 1⟩, ⟨"2025-01-01", 3, 3, 3, 1⟩] ∧
    (passthroughDay c6Input).map AggRec.highValue ≠ [0, 3] ∧
    ¬ ((passthroughDay c6Input).map AggRec.date).Pairwise strLe := by
  decide

/-- C6 witness: the amended claim applied to the concrete valid input. -/
theorem passthroughDay_spec_witness :
    (∀ r ∈ c6Input, (parseInput r.date).isSome) ∧
    passthroughDay c6Input = c6Input.map (fun r =>
      { date := dayKey ((parseInput r.date).getD ⟨1970, 1, 1⟩),
        value := r.value,
        highValue := match r.highValue with
          | some hv => if hv = 0 then r.value else hv
          | none => r.value,
        lowValue := match r.lowValue with
          | some lv => if lv = 0 then r.value else lv
          | none => r.value,
        count := 1 }) :=
  ⟨by decide, passthroughDay_spec c6Input (by decide)⟩

/-! ## Claim C4 — idempotence of the aggregator

Re-aggregation reads only `date` and `value` of each record: a group's
`highValue`/`lowValue` are recomputed as max/min of the member *values*
and `count` as the group size, so any record with `highValue ≠ value`,
`lowValue ≠ value` or `count ≠ 1` is not reproduced.  Week keys
(`"2024-W01"`) and weekday keys (`"3"`) moreover do not re-parse as
dates, so those records are dropped entirely.  Idempotence does hold
once each record's key re-parses into its own bucket and the record is
degenerate (`highValue = lowValue = value`, `count = 1`, value exact at
2 decimals). -/

/-- C4 (amended): re-running the aggregator at the same granularity
returns its input exactly, provided the input records are strictly
key-sorted, every record's bucket key re-parses to a date that maps
back to the same bucket key, and every record has
`highValue = lowValue = value`, `count = 1` and a value exact at two
decimals. -/
theorem aggregates_idempotent_of_pointwise (rs : List AggRec) (mode : AggMode)
    (hsorted : rs.Pairwise (fun a b => strLt a.date b.date))
    (hkey : ∀ r ∈ rs, ∃ x, parseDate r.date = some x ∧ getGroupKey mode x = r.date)
    (hval : ∀ r ∈ rs, r.highValue = r.value ∧ r.lowValue = r.value ∧ r.count = 1 ∧
      round2 r.value = r.value) :
    aggregates (rs.map recToObs) mode = rs := by
  have hkeyed : aggKeyed (rs.map recToObs) mode = rs.map (fun r => (r.date, r.value)) := by
    unfold aggKeyed
    rw [List.filterMap_map]
    apply filterMap_eq_map_of_forall
    intro r hr
    obtain ⟨x, hp, hk⟩ := hkey r hr
    simp [Function.comp, recToObs, parseInput, hp, hk]
  have hnd : (rs.map AggRec.date).Nodup :=
    List.pairwise_map.mpr (hsorted.imp fun h => strLt_ne h)
  have hfst : (rs.map (fun r => (r.date, r.value))).map Prod.fst = rs.map AggRec.date := by
    rw [List.map_map]
    rfl
  have hgroups : (rs.map AggRec.date).map
      (aggGroupRec (rs.map fun r' => (r'.date, r'.value))) = rs := by
    rw [List.map_map]
    have hcong : ∀ r ∈ rs,
        (aggGroupRec (rs.map fun r' => (r'.date, r'.value)) ∘ AggRec.date) r = r := by
      intro r hr
      have hnd' : ((rs.map fun r' => (r'.date, r'.value)).map (fun p => p.1)).Nodup := by
        rw [List.map_map]
        exact hnd
      have hfil := filter_keyEq_singleton (fun p : String × ℚ => p.1)
        (rs.map fun r' => (r'.date, r'.value)) hnd' (r.date, r.value)
        (by exact List.mem_map_of_mem _ hr)
      obtain ⟨hh, hl, hc, hr2⟩ := hval r hr
      have hfil' : (rs.map fun r' => (r'.date, r'.value)).filter
          (fun p : String × ℚ => p.1 = r.date) = [(r.date, r.value)] := hfil
      show aggGroupRec _ r.date = r
      unfold aggGroupRec
      rw [hfil']
      simp only [List.map_cons, List.map_nil, listSum, listMax, listMin, List.foldl,
        List.length_cons, List.length_nil]
      show AggRec.mk _ _ _ _ _ = AggRec.mk r.date r.value r.highValue r.lowValue r.count
      simp only [AggRec.mk.injEq]
      refine ⟨trivial, ?_, hh.symm, hl.symm, hc.symm⟩
      rw [show ((0 : ℚ) + r.value) = r.value from by ring]
      norm_num [hr2]
    calc rs.map (aggGroupRec (rs.map fun r' => (r'.date, r'.value)) ∘ AggRec.date)
        = rs.map id := List.map_congr_left hcong
      _ = rs := List.map_id rs
  rw [aggregates_eq, hkeyed, hfst, dedupFirst_eq_self hnd, hgroups]
  apply List.Sorted.insertionSort_eq
  exact hsorted.imp fun h => strLe_of_strLt h

/-- C4 counterexample: a single pre-aggregated month record with
`value = 15, highValue = 20, lowValue = 10, count = 2` (one observation
in its bucket) re-aggregates to `value = 15, highValue = 15,
lowValue = 15, count = 1` — not the input. -/
theorem aggregates_not_idempotent_counterexample :
    aggregates (c4Input.map recToObs) AggMode.byMonth = [⟨"2025-01", 15, 15, 15, 1⟩] ∧
    aggregates (c4Input.map recToObs) AggMode.byMonth ≠ c4Input := by
  have hp : parseDate "2025-01" = some ⟨2025, 1, 1⟩ := by decide
  have hfm : getGroupKey AggMode.byMonth ⟨2025, 1, 1⟩ = "2025-01" := by decide
  have hk : aggKeyed (c4Input.map recToObs) AggMode.byMonth = [("2025-01", 15)] := by
    simp [aggKeyed, c4Input, recToObs, parseInput, hp, hfm]
  have h1 : aggregates (c4Input.map recToObs) AggMode.byMonth =
      [⟨"2025-01", 15, 15, 15, 1⟩] := by
    rw [aggregates_eq, hk]
    have hd : dedupFirst ["2025-01"] = ["2025-01"] := by decide
    simp only [List.map_cons, List.map_nil, hd]
    have hg : aggGroupRec [("2025-01", 15)] "2025-01" = ⟨"2025-01", 15, 15, 15, 1⟩ := by
      unfold aggGroupRec
      have hfil : ([("2025-01", (15 : ℚ))].filter fun p => p.1 = "2025-01") =
          [("2025-01", (15 : ℚ))] := by decide
      rw [hfil]
      simp only [List.map_cons, List.map_nil, listSum, listMax, listMin, List.foldl,
        List.length_cons, List.length_nil]
      simp only [AggRec.mk.injEq]
      norm_num [round2, jsRound]
    rw [hg]
    simp [List.insertionSort]
  refine ⟨h1, ?_⟩
  rw [h1]
  simp only [c4Input, ne_eq, List.cons.injEq, AggRec.mk.injEq]
  intro hcon
  obtain ⟨⟨_, _, h20, _, _⟩, _⟩ := hcon
  norm_num at h20

/-- C4 witness: the amended claim at a concrete degenerate record. -/
theorem aggregates_idempotent_witness :
    c4Fixed.Pairwise (fun a b => strLt a.date b.date) ∧
    (∀ r ∈ c4Fixed, ∃ x, parseDate r.date = some x ∧
      getGroupKey AggMode.byMonth x = r.date) ∧
    (∀ r ∈ c4Fixed, r.highValue = r.value ∧ r.lowValue = r.value ∧ r.count = 1 ∧
      round2 r.value = r.value) ∧
    aggregates (c4Fixed.map recToObs) AggMode.byMonth = c4Fixed := by
  have h1 : c4Fixed.Pairwise (fun a b => strLt a.date b.date) := by
    simp [c4Fixed]
  have h2 : ∀ r ∈ c4Fixed, ∃ x, parseDate r.date = some x ∧
      getGroupKey AggMode.byMonth x = r.date := by
    intro r hr
    simp only [c4Fixed, List.mem_singleton] at hr
    subst hr
    exact ⟨⟨2025, 1, 1⟩, by decide, by decide⟩
  have h3 : ∀ r ∈ c4Fixed, r.highValue = r.value ∧ r.lowValue = r.value ∧ r.count = 1 ∧
      round2 r.value = r.value := by
    intro r hr
    simp only [c4Fixed, List.mem_singleton] at hr
    subst hr
    refine ⟨rfl, rfl, rfl, by norm_num [round2, jsRound]⟩
  exact ⟨h1, h2, h3, aggregates_idempotent_of_pointwise c4Fixed AggMode.byMonth h1 h2 h3⟩


/-! ## Claim C9 — multi-series (staggered/stacked) alignment -/

theorem alignSeries_eq (sl : List (List SeriesObs)) :
    alignSeries sl = List.insertionSort multiRecLe
      ((dedupFirst (sl.flatMap fun s => s.map fun o => dayKey o.date)).map
        fun k => MultiRec.mk k (sl.map fun s => slotVal s k)) :=
  rfl

theorem alignSeries_shape {sl : List (List SeriesObs)} {r : MultiRec}
    (hr : r ∈ alignSeries sl) :
    r.values = sl.map (fun s => slotVal s r.date) := by
  rw [alignSeries_eq] at hr
  have hr' := (List.perm_insertionSort multiRecLe _).mem_iff.mp hr
  obtain ⟨k, hk, rfl⟩ := List.mem_map.mp hr'
  rfl

/-- C9: with one observation per day within each series, the merged
output has one record per distinct day key appearing in any series,
sorted strictly ascending by day key, each holding a `values` array of
length = number of series whose slot `i` is series `i`'s value on that
day when present and `none` (absent, never zero) otherwise; in
particular for series A on days 1,2,3 and B on days 1,3 the day-2
record is `[A's day-2 value, absent]`. -/
theorem alignSeries_spec (sl : List (List SeriesObs))
    (h : ∀ s ∈ sl, (s.map fun o => dayKey o.date).Nodup) :
    ((alignSeries sl).map MultiRec.date).Pairwise strLt ∧
    (∀ k, k ∈ (alignSeries sl).map MultiRec.date ↔
      ∃ s ∈ sl, ∃ o ∈ s, dayKey o.date = k) ∧
    (∀ r ∈ alignSeries sl, r.values.length = sl.length) ∧
    (∀ r ∈ alignSeries sl, ∀ i, i < sl.length → ∀ o ∈ sl.getD i [],
      dayKey o.date = r.date → r.values.getD i none = some o.value) ∧
    (∀ r ∈ alignSeries sl, ∀ i, i < sl.length →
      (∀ o ∈ sl.getD i [], dayKey o.date ≠ r.date) → r.values.getD i none = none) ∧
    (alignSeries [seriesA, seriesB]).getD 1 ⟨"", []⟩ = ⟨"2025-01-02", [some 20, none]⟩ := by
  have hperm : (alignSeries sl).Perm
      ((dedupFirst (sl.flatMap fun s => s.map fun o => dayKey o.date)).map
        fun k => MultiRec.mk k (sl.map fun s => slotVal s k)) := by
    rw [alignSeries_eq]
    exact List.perm_insertionSort multiRecLe _
  refine ⟨?_, ?_, ?_, ?_, ?_, by decide⟩
  · -- strictly ascending keys
    have hsorted : List.Pairwise multiRecLe (alignSeries sl) := by
      rw [alignSeries_eq]
      exact List.sorted_insertionSort multiRecLe _
    have hle : ((alignSeries sl).map MultiRec.date).Pairwise strLe :=
      List.pairwise_map.mpr hsorted
    have hkeys : (((dedupFirst (sl.flatMap fun s => s.map fun o => dayKey o.date)).map
        fun k => MultiRec.mk k (sl.map fun s => slotVal s k)).map MultiRec.date) =
        dedupFirst (sl.flatMap fun s => s.map fun o => dayKey o.date) := by
      rw [List.map_map]
      exact List.map_id _
    have hnd : ((alignSeries sl).map MultiRec.date).Nodup := by
      rw [(hperm.map MultiRec.date).nodup_iff, hkeys]
      exact dedupFirst_nodup _
    exact pairwise_strLt_of_le_nodup hle hnd
  · -- membership
    intro k
    have hmm : k ∈ (alignSeries sl).map MultiRec.date ↔
        k ∈ dedupFirst (sl.flatMap fun s => s.map fun o => dayKey o.date) := by
      rw [(hperm.map MultiRec.date).mem_iff, List.map_map]
      constructor
      · intro hk
        obtain ⟨k', hk', he⟩ := List.mem_map.mp hk
        exact he ▸ hk'
      · intro hk
        exact List.mem_map.mpr ⟨k, hk, rfl⟩
    rw [hmm, dedupFirst_mem, List.mem_flatMap]
    constructor
    · rintro ⟨s, hs, hk⟩
      obtain ⟨o, ho, he⟩ := List.mem_map.mp hk
      exact ⟨s, hs, o, ho, he⟩
    · rintro ⟨s, hs, o, ho, he⟩
      exact ⟨s, hs, List.mem_map.mpr ⟨o, ho, he⟩⟩
  · -- values length
    intro r hr
    rw [alignSeries_shape hr, List.length_map]
  · -- present slot
    intro r hr i hi o ho hdate
    have hsh := alignSeries_shape hr
    have hgi : (sl.map fun s => slotVal s r.date).getD i none =
        slotVal (sl.getD i []) r.date := by
      rw [List.getD_eq_getElem _ _ (by rw [List.length_map]; exact hi),
        List.getElem_map, List.getD_eq_getElem _ _ hi]
    rw [hsh, hgi]
    have hnods : ((sl.getD i []).map fun o' => dayKey o'.date).Nodup := by
      apply h
      rw [List.getD_eq_getElem _ _ hi]
      exact List.getElem_mem _
    have hfil := filter_keyEq_singleton (fun o' : SeriesObs => dayKey o'.date)
      (sl.getD i []) hnods o ho
    unfold slotVal
    rw [← hdate]
    have hfil' : ((sl.getD i []).filter fun o' => dayKey o'.date = dayKey o.date) = [o] := hfil
    rw [hfil']
    rfl
  · -- absent slot
    intro r hr i hi hnone
    have hsh := alignSeries_shape hr
    have hgi : (sl.map fun s => slotVal s r.date).getD i none =
        slotVal (sl.getD i []) r.date := by
      rw [List.getD_eq_getElem _ _ (by rw [List.length_map]; exact hi),
        List.getElem_map, List.getD_eq_getElem _ _ hi]
    rw [hsh, hgi]
    unfold slotVal
    have hfil : ((sl.getD i []).filter fun o' => dayKey o'.date = r.date) = [] := by
      refine List.filter_eq_nil_iff.mpr ?_
      intro o' ho'
      simp only [decide_eq_true_eq]
      exact hnone o' ho'
    rw [hfil]
    rfl

/-- C9 witness: the claim's scenario — series A on days 1,2,3, series B
on days 1,3 — with the day-2 record `["2025-01-02", [A2, absent]]`. -/
theorem alignSeries_spec_witness :
    (∀ s ∈ [seriesA, seriesB], (s.map fun o => dayKey o.date).Nodup) ∧
    (((alignSeries [seriesA, seriesB]).map MultiRec.date).Pairwise strLt ∧
    (∀ k, k ∈ (alignSeries [seriesA, seriesB]).map MultiRec.date ↔
      ∃ s ∈ [seriesA, seriesB], ∃ o ∈ s, dayKey o.date = k) ∧
    (∀ r ∈ alignSeries [seriesA, seriesB],
      r.values.length = ([seriesA, seriesB] : List (List SeriesObs)).length) ∧
    (∀ r ∈ alignSeries [seriesA, seriesB], ∀ i,
      i < ([seriesA, seriesB] : List (List SeriesObs)).length →
      ∀ o ∈ ([seriesA, seriesB] : List (List SeriesObs)).getD i [],
      dayKey o.date = r.date → r.values.getD i none = some o.value) ∧
    (∀ r ∈ alignSeries [seriesA, seriesB], ∀ i,
      i < ([seriesA, seriesB] : List (List SeriesObs)).length →
      (∀ o ∈ ([seriesA, seriesB] : List (List SeriesObs)).getD i [],
        dayKey o.date ≠ r.date) → r.values.getD i none = none) ∧
    (alignSeries [seriesA, seriesB]).getD 1 ⟨"", []⟩ = ⟨"2025-01-02", [some 20, none]⟩) :=
  ⟨by decide, alignSeries_spec [seriesA, seriesB] (by decide)⟩

/-! ## Claim C7 — the logarithmic major-tick planner

When the decade-stepping loop yields fewer than 3 ticks the code
replaces them with `{1,2,5} × 10^decade` refinements — which are not
powers of ten — so the claim's universal "majors are powers of ten"
fails there (counterexample: range 1..10).  With at least 3
decade-aligned ticks the claim's description is exact, and the domain
reset to the tick extremes holds in every branch. -/

theorem two_ne_zpow_ten (j : ℤ) : (2 : ℚ) ≠ (10 : ℚ) ^ j := by
  intro he
  rcases le_or_lt j 0 with hj | hj
  · have : (10 : ℚ) ^ j ≤ (10 : ℚ) ^ (0 : ℤ) := zpow_le_zpow_right₀ (by norm_num) hj
    rw [← he] at this
    norm_num at this
  · have : (10 : ℚ) ^ (1 : ℤ) ≤ (10 : ℚ) ^ j := zpow_le_zpow_right₀ (by norm_num) hj
    rw [← he] at this
    norm_num at this

theorem posFloorLog10_million : posFloorLog10 1000000 = 6 := by
  rw [posFloorLog10, if_pos (by norm_num : (1 : ℚ) ≤ 1000000)]
  norm_num
  decide

theorem posFloorLog10_ten : posFloorLog10 10 = 1 := by
  rw [posFloorLog10, if_pos (by norm_num : (1 : ℚ) ≤ 10)]
  norm_num
  decide

theorem logTicksInitial_0_6_2 : logTicksInitial 0 6 2 = [1, 100, 10000, 1000000] := by
  rw [logTicksInitial]
  rw [show ((6 - 0 : ℤ).fdiv 2).toNat.succ = 4 from by decide]
  rw [show List.range 4 = [0, 1, 2, 3] from by decide]
  simp only [List.map_cons, List.map_nil]
  norm_num [List.getLast?]

theorem logTicksInitial_0_1_1 : logTicksInitial 0 1 1 = [1, 10] := by
  rw [logTicksInitial]
  rw [show ((1 - 0 : ℤ).fdiv 1).toNat.succ = 2 from by decide]
  rw [show List.range 2 = [0, 1] from by decide]
  simp only [List.map_cons, List.map_nil]
  norm_num [List.getLast?]

theorem logTicksRefined_0_1_5 : logTicksRefined 0 1 5 = [1, 2, 5, 10] := by
  rw [logTicksRefined]
  rw [show intRangeIncl 0 1 = [0, 1] from by decide]
  simp only [List.flatMap_cons, List.flatMap_nil, List.filterMap, List.append_nil]
  norm_num

theorem logMinDecade_one : logMinDecade 1 = 0 := by
  rw [logMinDecade, show logMinValue 1 = 1 from by norm_num [logMinValue]]
  rw [posFloorLog10, if_pos (by norm_num : (1 : ℚ) ≤ 1)]
  norm_num
  decide

theorem logMaxDecade_million : logMaxDecade 1 1000000 = 6 := by
  have h1 : logMaxValue 1 1000000 = 1000000 := by
    norm_num [logMaxValue, logMinValue]
  rw [logMaxDecade, h1, ceilLog10, posFloorLog10_million,
    if_pos (by norm_num : (1000000 : ℚ) = (10 : ℚ) ^ (6 : ℤ))]

theorem planLog10_eval_million :
    planLog10 1 1000000 5 = ⟨1, 1000000, [1, 100, 10000, 1000000]⟩ := by
  have hstep : logDecadeStep 1 1000000 5 = 2 := by
    rw [logDecadeStep, logMaxDecade_million, logMinDecade_one]
    decide
  rw [planLog10, logMinDecade_one, logMaxDecade_million, hstep, logTicksInitial_0_6_2]
  norm_num
  rw [if_neg (show ¬([1, 100, 10000, 1000000] : List ℚ) = [] from by simp)]
  refine ⟨?_, ?_, by simp⟩ <;> norm_num [listMin, listMax, List.foldl, min_def, max_def]

theorem logMaxDecade_ten : logMaxDecade 1 10 = 1 := by
  have h1 : logMaxValue 1 10 = 10 := by
    norm_num [logMaxValue, logMinValue]
  rw [logMaxDecade, h1, ceilLog10, posFloorLog10_ten,
    if_pos (by norm_num : (10 : ℚ) = (10 : ℚ) ^ (1 : ℤ))]

theorem planLog10_eval_1_10 : planLog10 1 10 5 = ⟨1, 10, [1, 2, 5, 10]⟩ := by
  have hstep : logDecadeStep 1 10 5 = 1 := by
    rw [logDecadeStep, logMaxDecade_ten, logMinDecade_one]
    decide
  rw [planLog10, logMinDecade_one, logMaxDecade_ten, hstep, logTicksInitial_0_1_1]
  norm_num [logTicksRefined_0_1_5]
  rw [if_neg (show ¬([1, 2, 5, 10] : List ℚ) = [] from by simp)]
  refine ⟨?_, ?_, by simp⟩ <;> norm_num [listMin, listMax, List.foldl, min_def, max_def]

theorem ceilLog10_ge {q : ℚ} (hq : 0 < q) : q ≤ (10 : ℚ) ^ ceilLog10 q := by
  rw [ceilLog10]
  by_cases he : q = (10 : ℚ) ^ posFloorLog10 q
  · rw [if_pos he]
    exact le_of_eq he
  · rw [if_neg he]
    exact (posFloorLog10_bounds hq).2.le

theorem logDecadeRange_pos (minValue0 maxValue0 : ℚ) :
    logMinDecade minValue0 < logMaxDecade minValue0 maxValue0 := by
  have hmin1 : (1 : ℚ) ≤ logMinValue minValue0 := le_max_left _ _
  have hminpos : (0 : ℚ) < logMinValue minValue0 := lt_of_lt_of_le one_pos hmin1
  have hlt : logMinValue minValue0 < logMaxValue minValue0 maxValue0 := by
    rw [logMaxValue]
    split_ifs with hc
    · nlinarith
    · push_neg at hc
      exact hc
  have h1 : (10 : ℚ) ^ logMinDecade minValue0 ≤ logMinValue minValue0 :=
    (posFloorLog10_bounds hminpos).1
  have h2 : logMaxValue minValue0 maxValue0 ≤ (10 : ℚ) ^ logMaxDecade minValue0 maxValue0 :=
    ceilLog10_ge (lt_trans hminpos hlt)
  have hpow : (10 : ℚ) ^ logMinDecade minValue0 < (10 : ℚ) ^ logMaxDecade minValue0 maxValue0 := by
    calc (10 : ℚ) ^ logMinDecade minValue0 ≤ logMinValue minValue0 := h1
      _ < logMaxValue minValue0 maxValue0 := hlt
      _ ≤ (10 : ℚ) ^ logMaxDecade minValue0 maxValue0 := h2
  exact (zpow_lt_zpow_iff_right₀ (by norm_num : (1 : ℚ) < 10)).mp hpow

/-- C7 (amended): for every positive range after clamping, whenever the
decade-stepping pass yields at least 3 ticks, the log planner's majors
are powers of ten at `minDecade + i * decadeStep` (with
`decadeStep = max(1, ceil((maxDecade − minDecade)/tickCount))`), the top
decade is always included, and the final domain min/max are reset to
the smallest/largest major tick; in particular
`planLog10 1 1000000 5 = ⟨1, 1000000, [1, 100, 10000, 1000000]⟩`. -/
theorem planLog10_majors_spec (minValue0 maxValue0 : ℚ) (tickCount : ℕ)
    (h3 : 3 ≤ (logTicksInitial (logMinDecade minValue0) (logMaxDecade minValue0 maxValue0)
      (logDecadeStep minValue0 maxValue0 tickCount)).length) :
    (∀ t ∈ (planLog10 minValue0 maxValue0 tickCount).ticks,
      ∃ j : ℤ, t = (10 : ℚ) ^ j ∧ logMinDecade minValue0 ≤ j ∧
        j ≤ logMaxDecade minValue0 maxValue0 ∧
        ((∃ i : ℕ, j = logMinDecade minValue0 +
            (i : ℤ) * logDecadeStep minValue0 maxValue0 tickCount) ∨
          j = logMaxDecade minValue0 maxValue0)) ∧
    (10 : ℚ) ^ logMaxDecade minValue0 maxValue0 ∈ (planLog10 minValue0 maxValue0 tickCount).ticks ∧
    (planLog10 minValue0 maxValue0 tickCount).minValue =
      listMin (planLog10 minValue0 maxValue0 tickCount).ticks ∧
    (planLog10 minValue0 maxValue0 tickCount).maxValue =
      listMax (planLog10 minValue0 maxValue0 tickCount).ticks ∧
    planLog10 1 1000000 5 = ⟨1, 1000000, [1, 100, 10000, 1000000]⟩ := by
  set minD := logMinDecade minValue0 with hminD
  set maxD := logMaxDecade minValue0 maxValue0 with hmaxD
  set step := logDecadeStep minValue0 maxValue0 tickCount with hstep
  set T := logTicksInitial minD maxD step with hT
  have hrange : minD < maxD := logDecadeRange_pos minValue0 maxValue0
  have hstep1 : 1 ≤ step := le_max_left _ _
  have hTnil : T ≠ [] := by
    intro hc
    rw [hc] at h3
    simp at h3
  have hplan : planLog10 minValue0 maxValue0 tickCount = ⟨listMin T, listMax T, T⟩ := by
    rw [planLog10]
    rw [if_neg (show ¬(T.length < 3 ∧ 1 ≤ maxD - minD) from fun hc => absurd hc.1 (by omega)),
      if_neg hTnil]
  -- membership in the decade-stepping base list
  have hbase : ∀ t ∈ (List.range ((maxD - minD).fdiv step).toNat.succ).map
      (fun i => (10 : ℚ) ^ (minD + ((i : ℕ) : ℤ) * step)),
      ∃ j : ℤ, t = (10 : ℚ) ^ j ∧ minD ≤ j ∧ j ≤ maxD ∧
        ((∃ i : ℕ, j = minD + (i : ℤ) * step) ∨ j = maxD) := by
    intro t ht
    obtain ⟨i, hi, rfl⟩ := List.mem_map.mp ht
    rw [List.mem_range] at hi
    refine ⟨minD + (i : ℤ) * step, rfl, ?_, ?_, Or.inl ⟨i, rfl⟩⟩
    · have : (0 : ℤ) ≤ (i : ℤ) * step := mul_nonneg (by positivity) (by omega)
      omega
    · have hi' : (i : ℤ) ≤ (maxD - minD).fdiv step := by
        have h1 : (i : ℤ) ≤ (((maxD - minD).fdiv step).toNat : ℤ) := by
          exact_mod_cast Nat.le_of_lt_succ hi
        have h2 : (((maxD - minD).fdiv step).toNat : ℤ) = (maxD - minD).fdiv step :=
          Int.toNat_of_nonneg (Int.fdiv_nonneg (by omega) (by omega))
        omega
      have hmul : (i : ℤ) * step ≤ maxD - minD := by
        rw [Int.fdiv_eq_ediv _ (by omega : (0 : ℤ) ≤ step)] at hi'
        have := (Int.le_ediv_iff_mul_le (by omega : (0 : ℤ) < step)).mp hi'
        exact this
      omega
  have hmemT : ∀ t ∈ T, ∃ j : ℤ, t = (10 : ℚ) ^ j ∧ minD ≤ j ∧ j ≤ maxD ∧
      ((∃ i : ℕ, j = minD + (i : ℤ) * step) ∨ j = maxD) := by
    intro t ht
    rw [hT, logTicksInitial] at ht
    by_cases hc : ((List.range ((maxD - minD).fdiv step).toNat.succ).map
        (fun i => (10 : ℚ) ^ (minD + ((i : ℕ) : ℤ) * step))).getLast?.getD 0 < (10 : ℚ) ^ maxD
    · rw [if_pos hc] at ht
      rcases List.mem_append.mp ht with ht' | ht'
      · exact hbase t ht'
      · rw [List.mem_singleton] at ht'
        subst ht'
        exact ⟨maxD, rfl, by omega, le_rfl, Or.inr rfl⟩
    · rw [if_neg hc] at ht
      exact hbase t ht
  have htop : (10 : ℚ) ^ maxD ∈ T := by
    rw [hT, logTicksInitial]
    set base := (List.range ((maxD - minD).fdiv step).toNat.succ).map
      (fun i => (10 : ℚ) ^ (minD + ((i : ℕ) : ℤ) * step)) with hb
    by_cases hc : base.getLast?.getD 0 < (10 : ℚ) ^ maxD
    · rw [if_pos hc]
      exact List.mem_append_right _ (List.mem_singleton.mpr rfl)
    · rw [if_neg hc]
      have hbn : base ≠ [] := by
        rw [hb]
        simp [List.range_succ]
      have hlast : base.getLast?.getD 0 = base.getLast hbn := by
        rw [List.getLast?_eq_getLast base hbn]
        rfl
      have hlm : base.getLast hbn ∈ base := List.getLast_mem hbn
      obtain ⟨j, hj, _, hjmax, _⟩ := hbase _ hlm
      have hle : base.getLast hbn ≤ (10 : ℚ) ^ maxD := by
        rw [hj]
        exact (zpow_le_zpow_iff_right₀ (by norm_num : (1 : ℚ) < 10)).mpr hjmax
      push_neg at hc
      rw [hlast] at hc
      have : base.getLast hbn = (10 : ℚ) ^ maxD := le_antisymm hle hc
      rw [← this]
      exact hlm
  rw [hplan]
  exact ⟨hmemT, htop, rfl, rfl, planLog10_eval_million⟩

theorem logDecadeStep_million : logDecadeStep 1 1000000 5 = 2 := by
  rw [logDecadeStep, logMaxDecade_million, logMinDecade_one]
  decide

/-- C7 counterexample: for the clamped range 1..10 the planner's
`< 3 ticks` refinement produces majors `[1, 2, 5, 10]` — `2` is not a
power of ten, refuting "major ticks at powers of ten stepping by
`max(1, ceil((maxDecade−minDecade)/tickCount))` decades" as a universal
statement. -/
theorem planLog10_refined_counterexample :
    planLog10 1 10 5 = ⟨1, 10, [1, 2, 5, 10]⟩ ∧
    (2 : ℚ) ∈ (planLog10 1 10 5).ticks ∧
    (∀ j : ℤ, (2 : ℚ) ≠ (10 : ℚ) ^ j) := by
  refine ⟨planLog10_eval_1_10, ?_, two_ne_zpow_ten⟩
  rw [planLog10_eval_1_10]
  simp

/-- C7 witness: the claim's 1..1,000,000 instance, where the decade
pass yields 4 ticks. -/
theorem planLog10_majors_spec_witness :
    3 ≤ (logTicksInitial (logMinDecade 1) (logMaxDecade 1 1000000)
      (logDecadeStep 1 1000000 5)).length ∧
    ((∀ t ∈ (planLog10 1 1000000 5).ticks,
      ∃ j : ℤ, t = (10 : ℚ) ^ j ∧ logMinDecade 1 ≤ j ∧ j ≤ logMaxDecade 1 1000000 ∧
        ((∃ i : ℕ, j = logMinDecade 1 + (i : ℤ) * logDecadeStep 1 1000000 5) ∨
          j = logMaxDecade 1 1000000)) ∧
    (10 : ℚ) ^ logMaxDecade 1 1000000 ∈ (planLog10 1 1000000 5).ticks ∧
    (planLog10 1 1000000 5).minValue = listMin (planLog10 1 1000000 5).ticks ∧
    (planLog10 1 1000000 5).maxValue = listMax (planLog10 1 1000000 5).ticks ∧
    planLog10 1 1000000 5 = ⟨1, 1000000, [1, 100, 10000, 1000000]⟩) :=
  ⟨by rw [logMinDecade_one, logMaxDecade_million, logDecadeStep_million,
      logTicksInitial_0_6_2]; norm_num,
    planLog10_majors_spec 1 1000000 5 (by rw [logMinDecade_one, logMaxDecade_million,
      logDecadeStep_million, logTicksInitial_0_6_2]; norm_num)⟩

/-! ## Claim C8 — tapered log-scale minor ticks

The per-interval selection is: candidates from `{2,…,9} × 10^decade`
strictly between the bounding majors and inside the domain, subsampled
to the position-dependent cap, then filtered by the ≥ 2%-of-height
distance guard against every major's scaled position.  The scale
function is a parameter, as in the source (the block closes over
`yScale`). -/

theorem jsRound_nonneg {x : ℚ} (hx : 0 ≤ x) : 0 ≤ jsRound x := by
  rw [jsRound]
  exact Int.floor_nonneg.mpr (by linarith)

theorem jsRound_le_subOne {x : ℚ} {n : ℕ} (hx : x ≤ (n : ℚ) - 1) :
    jsRound x ≤ (n : ℤ) - 1 := by
  rw [jsRound]
  calc ⌊x + 1/2⌋ ≤ ⌊((n : ℚ) - 1) + 1/2⌋ := Int.floor_le_floor (by linarith)
    _ = (n : ℤ) - 1 := by
      rw [show ((n : ℚ) - 1) + 1/2 = (((n : ℤ) - 1 : ℤ) : ℚ) + (1/2 : ℚ) by push_cast; ring]
      rw [Int.floor_int_add]
      norm_num

theorem subsampleEven_length_le (l : List ℚ) (mc : ℕ) : (subsampleEven l mc).length ≤ mc := by
  rw [subsampleEven]
  split_ifs with h1 h2
  · exact h1
  · simp
  · simp

theorem subsampleEven_subset {l : List ℚ} {mc : ℕ} : ∀ v ∈ subsampleEven l mc, v ∈ l := by
  intro v hv
  rw [subsampleEven] at hv
  split_ifs at hv with h1 h2
  · exact hv
  · simp at hv
  · push_neg at h1
    push_neg at h2
    obtain ⟨j, hj, rfl⟩ := List.mem_map.mp hv
    rw [List.mem_range] at hj
    have hlen1 : 1 ≤ l.length := by omega
    have hmc2 : 2 ≤ mc := h2
    have hmcpos : (0 : ℚ) < (mc : ℚ) - 1 := by
      have : (2 : ℚ) ≤ (mc : ℚ) := by exact_mod_cast hmc2
      linarith
    have hlenq : (1 : ℚ) ≤ (l.length : ℚ) := by exact_mod_cast hlen1
    have hx0 : 0 ≤ ((j : ℕ) : ℚ) * ((l.length : ℚ) - 1) / ((mc : ℚ) - 1) := by
      apply div_nonneg _ hmcpos.le
      apply mul_nonneg (by positivity)
      linarith
    have hx1 : ((j : ℕ) : ℚ) * ((l.length : ℚ) - 1) / ((mc : ℚ) - 1) ≤ (l.length : ℚ) - 1 := by
      rw [div_le_iff₀ hmcpos]
      have hj' : ((j : ℕ) : ℚ) ≤ (mc : ℚ) - 1 := by
        have hjq : ((j : ℕ) : ℚ) + 1 ≤ (mc : ℚ) := by exact_mod_cast hj
        linarith
      nlinarith
    have hidx : (jsRound (((j : ℕ) : ℚ) * ((l.length : ℚ) - 1) / ((mc : ℚ) - 1))).toNat <
        l.length := by
      have ha := jsRound_nonneg hx0
      have hb := jsRound_le_subOne (n := l.length) hx1
      omega
    rw [List.getD_eq_getElem _ _ hidx]
    exact List.getElem_mem _

theorem logMinorCandidates_mem {lower upper minV maxV v : ℚ}
    (hv : v ∈ logMinorCandidates lower upper minV maxV) :
    (∃ m ∈ ([2, 3, 4, 5, 6, 7, 8, 9] : List ℚ), ∃ dec : ℤ, v = m * (10 : ℚ) ^ dec) ∧
    lower < v ∧ v < upper ∧ minV < v ∧ v < maxV := by
  rw [logMinorCandidates] at hv
  obtain ⟨dec, hdec, hv'⟩ := List.mem_flatMap.mp hv
  obtain ⟨m, hm, hv''⟩ := List.mem_filterMap.mp hv'
  dsimp only at hv''
  split_ifs at hv'' with hc
  · obtain ⟨h1, h2, h3, h4⟩ := hc
    cases hv''
    exact ⟨⟨m, hm, dec, rfl⟩, h1, h2, h3, h4⟩

/-- C8: for a log axis with at least two sorted majors, the minors of
interval `i` never exceed `round(4 * (1 − i/max(1, numIntervals−1)))`
in number, come only from `{2,…,9} × 10^decade` strictly between the
bounding majors (and strictly inside the domain), and every selected
minor's scaled position is strictly more than 2% of the pixel height
away from every major's position. -/
theorem logMinorTicks_spec (sortedTicks : List ℚ) (minValue maxValue innerHeight : ℚ)
    (yScale : ℚ → ℚ) (i : ℕ)
    (hsorted : sortedTicks.Pairwise (· ≤ ·))
    (h2 : 2 ≤ sortedTicks.length) (hi : i + 1 < sortedTicks.length) :
    (logMinorTicksAt sortedTicks minValue maxValue innerHeight yScale i).length ≤
      (getMaxIntermediatesForPosition (sortedTicks.length - 1) i).toNat ∧
    (∀ v ∈ logMinorTicksAt sortedTicks minValue maxValue innerHeight yScale i,
      (∃ m ∈ ([2, 3, 4, 5, 6, 7, 8, 9] : List ℚ), ∃ dec : ℤ, v = m * (10 : ℚ) ^ dec) ∧
      sortedTicks.getD i 0 < v ∧ v < sortedTicks.getD (i + 1) 0 ∧
      minValue < v ∧ v < maxValue) ∧
    (∀ v ∈ logMinorTicksAt sortedTicks minValue maxValue innerHeight yScale i,
      ∀ t ∈ sortedTicks, innerHeight * (2 / 100) < |yScale v - yScale t|) := by
  have hii : i < sortedTicks.length := by omega
  have hdrop : sortedTicks.drop i =
      sortedTicks[i] :: sortedTicks[i + 1] :: sortedTicks.drop (i + 2) := by
    rw [List.drop_eq_getElem_cons hii, List.drop_eq_getElem_cons hi]
  have heq : logMinorTicksAt sortedTicks minValue maxValue innerHeight yScale i =
      selectLogMinors (sortedTicks.length - 1) i sortedTicks[i] sortedTicks[i + 1]
        minValue maxValue innerHeight yScale (sortedTicks.map yScale) := by
    rw [logMinorTicksAt, hdrop]
  rw [heq]
  rw [selectLogMinors]
  split_ifs with hz
  · refine ⟨by simp, by simp, by simp⟩
  · set cap := getMaxIntermediatesForPosition (sortedTicks.length - 1) i with hcap
    set cands := logMinorCandidates sortedTicks[i] sortedTicks[i + 1] minValue maxValue
      with hcands
    refine ⟨?_, ?_, ?_⟩
    · calc ((subsampleEven cands cap.toNat).filter _).length ≤
          (subsampleEven cands cap.toNat).length := List.length_filter_le _ _
        _ ≤ cap.toNat := subsampleEven_length_le _ _
    · intro v hv
      have hv' : v ∈ subsampleEven cands cap.toNat := List.mem_of_mem_filter hv
      have hvc : v ∈ cands := subsampleEven_subset v hv'
      have := logMinorCandidates_mem hvc
      rw [List.getD_eq_getElem _ _ hii, List.getD_eq_getElem _ _ hi]
      exact this
    · intro v hv t ht
      have hp := List.of_mem_filter hv
      rw [List.all_eq_true] at hp
      have := hp (yScale t) (List.mem_map_of_mem yScale ht)
      simpa using this

theorem logMinorTicks_spec_witness :
    ([(1 : ℚ), 10, 100] : List ℚ).Pairwise (· ≤ ·) ∧
    2 ≤ ([(1 : ℚ), 10, 100] : List ℚ).length ∧
    0 + 1 < ([(1 : ℚ), 10, 100] : List ℚ).length ∧
    ((logMinorTicksAt [1, 10, 100] 1 100 200 (fun v => 2 * v) 0).length ≤
      (getMaxIntermediatesForPosition (([(1 : ℚ), 10, 100] : List ℚ).length - 1) 0).toNat ∧
    (∀ v ∈ logMinorTicksAt [1, 10, 100] 1 100 200 (fun v => 2 * v) 0,
      (∃ m ∈ ([2, 3, 4, 5, 6, 7, 8, 9] : List ℚ), ∃ dec : ℤ, v = m * (10 : ℚ) ^ dec) ∧
      ([(1 : ℚ), 10, 100] : List ℚ).getD 0 0 < v ∧
      v < ([(1 : ℚ), 10, 100] : List ℚ).getD 1 0 ∧
      (1 : ℚ) < v ∧ v < 100) ∧
    (∀ v ∈ logMinorTicksAt [1, 10, 100] 1 100 200 (fun v => 2 * v) 0,
      ∀ t ∈ ([(1 : ℚ), 10, 100] : List ℚ),
        (200 : ℚ) * (2 / 100) < |(fun v => 2 * v) v - (fun v => 2 * v) t|)) :=
  ⟨by norm_num [List.pairwise_cons], by norm_num, by norm_num,
    logMinorTicks_spec [1, 10, 100] 1 100 200 (fun v => 2 * v) 0
      (by norm_num [List.pairwise_cons]) (by norm_num) (by norm_num)⟩


end Barchart
